import Mathlib

/-!
Verification of the memory-management core of the `1duxa/kernel` repository.

The Rust sources are shallowly embedded: `usize`/`u64` values are natural
numbers together with explicit wrap-around (`% 2^64`) exactly where the
source performs wrapping arithmetic, fallible operations return `Option` or
`Except`, and every stateful allocator is modelled by explicit state
passing.  Sequential semantics is used throughout: the compare-and-swap
retry loops of the source always succeed on the first try in the absence of
concurrent writers, so they are modelled as a single unconditional update.
-/

namespace Kernel

/-- `2^64`, the modulus of `usize`/`u64` arithmetic. -/
def U64 : Nat := 2 ^ 64

theorem U64_eq : U64 = 2 ^ 64 := rfl

theorem U64_pos : 0 < U64 := by rw [U64_eq]; positivity

/-- Rust `usize::checked_add`: `none` exactly when the sum does not fit in 64 bits. -/
def checkedAdd (x y : Nat) : Option Nat :=
  if x + y < U64 then some (x + y) else none

/-- Rust `usize::saturating_add` on 64-bit words. -/
def satAdd (x y : Nat) : Nat :=
  min (x + y) (U64 - 1)

/-- Source `core.rs` `align_up(addr, align) = (addr + align - 1) & !(align - 1)`,
including the wrap-around of the 64-bit addition and the 64-bit bitwise
complement `!(align - 1) = (2^64 - 1) - (align - 1)`. -/
def align_up (addr align : Nat) : Nat :=
  ((addr + align - 1) % U64) &&& ((U64 - 1) - (align - 1))

-- ===========================================================================
-- Bit-level facts about `align_up`
-- ===========================================================================

/-- Bits of the mask `2^a - 2^b`: exactly the positions in `[b, a)`. -/
theorem mask_testBit (a b i : Nat) (h : b ≤ a) :
    (2 ^ a - 2 ^ b).testBit i = (decide (b ≤ i) && decide (i < a)) := by
  have h1 : 2 ^ a - 2 ^ b = 2 ^ b * (2 ^ (a - b) - 1) := by
    rw [Nat.mul_sub_one]
    rw [← Nat.pow_add]
    congr 1
    · congr 1; omega
  rw [h1, Nat.testBit_mul_pow_two, Nat.testBit_two_pow_sub_one]
  by_cases hbi : b ≤ i
  · have h3 : (i - b < a - b) ↔ (i < a) := by omega
    simp [hbi, h3]
  · simp [hbi]

/-- For `x < 2^64` and `k ≤ 64`, masking with `2^64 - 2^k` rounds `x` down to a
multiple of `2^k`. -/
theorem and_mask_eq (x k : Nat) (hx : x < 2 ^ 64) (hk : k ≤ 64) :
    x &&& (2 ^ 64 - 2 ^ k) = 2 ^ k * (x / 2 ^ k) := by
  apply Nat.eq_of_testBit_eq
  intro i
  rw [Nat.testBit_and, mask_testBit 64 k i hk, Nat.testBit_mul_pow_two]
  rcases Nat.lt_or_ge i k with hik | hik
  · have hk1 : ¬ (k ≤ i) := by omega
    simp [hk1]
  · have hdiv : x / 2 ^ k = x >>> k := (Nat.shiftRight_eq_div_pow x k).symm
    rw [hdiv, Nat.testBit_shiftRight]
    have hki : k + (i - k) = i := by omega
    rw [hki]
    rcases Nat.lt_or_ge i 64 with hi64 | hi64
    · simp [hik, hi64]
    · have hfb : x.testBit i = false := by
        apply Nat.testBit_lt_two_pow
        calc x < 2 ^ 64 := hx
        _ ≤ 2 ^ i := Nat.pow_le_pow_right (by omega) hi64
      simp [hfb]

/-- The complemented mask used by `align_up` for a power-of-two alignment. -/
theorem compl_mask_eq (k : Nat) (hk : k ≤ 64) :
    (U64 - 1) - (2 ^ k - 1) = 2 ^ 64 - 2 ^ k := by
  have : (1 : Nat) ≤ 2 ^ k := Nat.one_le_two_pow
  have : (2 : Nat) ^ k ≤ 2 ^ 64 := Nat.pow_le_pow_right (by omega) hk
  unfold U64
  omega

/-- Characterization of `align_up` at a power-of-two alignment when the 64-bit
addition `addr + align - 1` does not wrap. -/
theorem align_up_eq (addr k : Nat) (hk : k ≤ 64) (hw : addr + 2 ^ k - 1 < U64) :
    align_up addr (2 ^ k) = 2 ^ k * ((addr + 2 ^ k - 1) / 2 ^ k) := by
  unfold align_up
  rw [compl_mask_eq k hk, Nat.mod_eq_of_lt hw]
  exact and_mask_eq _ k hw hk

/-- `align_up` at a power-of-two alignment always returns a multiple of the
alignment, even when the 64-bit addition wraps. -/
theorem align_up_dvd (addr k : Nat) (hk : k ≤ 64) :
    2 ^ k ∣ align_up addr (2 ^ k) := by
  unfold align_up
  rw [compl_mask_eq k hk]
  have hlt : (addr + 2 ^ k - 1) % U64 < 2 ^ 64 := by
    rw [← U64_eq]; exact Nat.mod_lt _ U64_pos
  rw [and_mask_eq _ k hlt hk]
  exact Dvd.intro _ rfl

/-- Bounds for `align_up` in the non-wrapping regime: the result lies in
`[addr, addr + align)`. -/
theorem align_up_bounds (addr k : Nat) (hk : k ≤ 64) (hw : addr + 2 ^ k - 1 < U64) :
    addr ≤ align_up addr (2 ^ k) ∧ align_up addr (2 ^ k) < addr + 2 ^ k := by
  rw [align_up_eq addr k hk hw]
  have hpos : 0 < 2 ^ k := Nat.pos_pow_of_pos k (by omega)
  have hdm := Nat.div_add_mod (addr + 2 ^ k - 1) (2 ^ k)
  have hlt : (addr + 2 ^ k - 1) % 2 ^ k < 2 ^ k := Nat.mod_lt _ hpos
  omega

/-- On an already-aligned address, `align_up` is the identity (non-wrapping regime). -/
theorem align_up_self (addr k : Nat) (hk : k ≤ 64) (hw : addr + 2 ^ k - 1 < U64)
    (ha : addr % 2 ^ k = 0) : align_up addr (2 ^ k) = addr := by
  rw [align_up_eq addr k hk hw]
  have hpos : 0 < 2 ^ k := Nat.pos_pow_of_pos k (by omega)
  obtain ⟨q, hq⟩ := Nat.dvd_of_mod_eq_zero ha
  subst hq
  have h1 : (2 ^ k * q + 2 ^ k - 1) / 2 ^ k = q := by
    have h2 : 2 ^ k * q + 2 ^ k - 1 = 2 ^ k * q + (2 ^ k - 1) := by omega
    rw [h2, Nat.mul_add_div hpos, Nat.div_eq_of_lt (by omega)]
    omega
  rw [h1]

-- ===========================================================================
-- Region validator (`memory/allocators/core.rs`, `validate_region`)
-- ===========================================================================

/-- Allocator error type from `memory/allocators/core.rs`. -/
inductive AllocError where
  | OutOfMemory
  | InvalidAddress
  | InvalidSize
  | Overflow
  | Uninited
  deriving DecidableEq, Repr

/-- `validate_region(start, size)` from `memory/allocators/core.rs`:
null start, zero size, then `start.checked_add(size)` overflow, else Ok. -/
def validate_region (start size : Nat) : Except AllocError Unit :=
  if start = 0 then .error .InvalidAddress
  else if size = 0 then .error .InvalidSize
  else match checkedAdd start size with
    | none => .error .Overflow
    | some _ => .ok ()

/-- C9: The region validator returns `InvalidAddress` iff `start = 0`; otherwise
`InvalidSize` iff `size = 0`; otherwise `Overflow` iff `start + size` exceeds the
64-bit address type; and `Ok` in every remaining case.  It is a pure function. -/
theorem C9_validate_region_cases (start size : Nat) :
    (validate_region start size = .error .InvalidAddress ↔ start = 0) ∧
    (start ≠ 0 → (validate_region start size = .error .InvalidSize ↔ size = 0)) ∧
    (start ≠ 0 → size ≠ 0 →
      (validate_region start size = .error .Overflow ↔ U64 ≤ start + size)) ∧
    (start ≠ 0 → size ≠ 0 → start + size < U64 →
      validate_region start size = .ok ()) := by
  by_cases hs : start = 0
  · have hval : validate_region start size = .error .InvalidAddress := by
      simp [validate_region, hs]
    rw [hval]
    exact ⟨⟨fun _ => hs, fun _ => rfl⟩, fun h => absurd hs h, fun h _ => absurd hs h,
      fun h _ _ => absurd hs h⟩
  by_cases hz : size = 0
  · have hval : validate_region start size = .error .InvalidSize := by
      simp [validate_region, hs, hz]
    rw [hval]
    exact ⟨⟨fun h => by simp at h, fun h => absurd h hs⟩,
      fun _ => ⟨fun _ => hz, fun _ => rfl⟩, fun _ h => absurd hz h, fun _ h _ => absurd hz h⟩
  by_cases ho : start + size < U64
  · have hval : validate_region start size = .ok () := by
      simp [validate_region, checkedAdd, hs, hz, ho]
    rw [hval]
    exact ⟨⟨fun h => by simp at h, fun h => absurd h hs⟩,
      fun _ => ⟨fun h => by simp at h, fun h => absurd h hz⟩,
      fun _ _ => ⟨fun h => by simp at h, fun hge => absurd ho (by omega)⟩,
      fun _ _ _ => rfl⟩
  · have hval : validate_region start size = .error .Overflow := by
      simp [validate_region, checkedAdd, hs, hz, ho]
    rw [hval]
    exact ⟨⟨fun h => by simp at h, fun h => absurd h hs⟩,
      fun _ => ⟨fun h => by simp at h, fun h => absurd h hz⟩,
      fun _ _ => ⟨fun _ => by omega, fun _ => rfl⟩, fun _ _ hlt => absurd hlt ho⟩

/-- Witness for C9 at concrete inputs. -/
theorem C9_validate_region_cases_witness :
    validate_region 4096 4096 = .ok () :=
  (C9_validate_region_cases 4096 4096).2.2.2 (by decide) (by decide) (by norm_num [U64])

-- ===========================================================================
-- Bump allocator (`memory/allocators/simple.rs`, `BumpAllocator`)
-- ===========================================================================

/-- State of the bump allocator.  The source guards the fields with atomics;
under the sequential semantics they are plain values.  `inited` is the source
field `initialized` (viewed as a flag). -/
structure BumpAllocator where
  heap_start : Nat
  heap_end : Nat
  next : Nat
  inited : Bool
  deriving DecidableEq, Repr

/-- `GlobalAlloc::alloc` for the bump allocator.  The compare-and-swap retry
loop always succeeds sequentially, so it is one cursor update. -/
def BumpAllocator.alloc (st : BumpAllocator) (size align : Nat) :
    Option Nat × BumpAllocator :=
  if st.inited = false then (none, st)
  else if size = 0 then (none, st)
  else
    match checkedAdd (align_up st.next align) size with
    | none => (none, st)
    | some new_next =>
      if new_next > st.heap_end then (none, st)
      else (some (align_up st.next align), { st with next := new_next })

-- ===========================================================================
-- Stack allocator (`memory/allocators/simple.rs`, `StackAllocator`)
-- ===========================================================================

/-- State of the stack allocator.  `stop` is the source field `end` (a Lean
keyword). -/
structure StackAllocator where
  start : Nat
  stop : Nat
  top : Nat
  inited : Bool
  deriving DecidableEq, Repr

/-- `GlobalAlloc::alloc` for the stack allocator. -/
def StackAllocator.alloc (st : StackAllocator) (size align : Nat) :
    Option Nat × StackAllocator :=
  if st.inited = false then (none, st)
  else if size = 0 then (none, st)
  else
    match checkedAdd (align_up st.top align) size with
    | none => (none, st)
    | some new_top =>
      if new_top > st.stop then (none, st)
      else (some (align_up st.top align), { st with top := new_top })

/-- `GlobalAlloc::dealloc` for the stack allocator: null check, then a
compare-and-swap of the cursor from `ptr.saturating_add(size)` to `ptr`; a
failed exchange (out-of-order free) changes nothing. -/
def StackAllocator.dealloc (st : StackAllocator) (p size : Nat) : StackAllocator :=
  if p = 0 then st
  else if st.top = satAdd p size then { st with top := p } else st

-- ===========================================================================
-- Linked-list (free-list) allocator (`memory/allocators/simple.rs`)
-- ===========================================================================

/-- `core::mem::size_of::<ListNode>()` on x86-64: a `usize` plus an
`Option<NonNull<ListNode>>`, 16 bytes. -/
def listNodeSize : Nat := 16

/-- The intrusive free list is represented by the sequence of its nodes in
list order, each node being `(start_addr, size)`. -/
structure LinkedListAllocator where
  nodes : List (Nat × Nat)
  inited : Bool
  deriving DecidableEq, Repr

/-- `LinkedListAllocator::alloc_from_region(node, size, align)`: succeeds with
the aligned start when the request fits and leaves either no excess or enough
excess for a free-node header. -/
def alloc_from_region (nstart nsize size align : Nat) : Option Nat :=
  match checkedAdd (align_up nstart align) size with
  | none => none
  | some alloc_end =>
    if alloc_end > (nstart + nsize) % U64 then none
    else if 0 < (nstart + nsize) % U64 - alloc_end ∧
        (nstart + nsize) % U64 - alloc_end < listNodeSize then none
    else some (align_up nstart align)

/-- The first-fit walk of `LinkedListAllocator::alloc` over the free list,
with the four carve strategies of the source (exact fit, front shrink, back
shrink, middle split). -/
def ll_alloc_walk (required_size align : Nat) :
    List (Nat × Nat) → Option (Nat × List (Nat × Nat))
  | [] => none
  | (nstart, nsize) :: rest =>
    match alloc_from_region nstart nsize required_size align with
    | some alloc_start =>
      if alloc_start = nstart ∧ alloc_start + required_size = (nstart + nsize) % U64 then
        some (alloc_start, rest)
      else if alloc_start = nstart then
        some (alloc_start, (alloc_start + required_size,
          (nstart + nsize) % U64 - (alloc_start + required_size)) :: rest)
      else if alloc_start + required_size = (nstart + nsize) % U64 then
        some (alloc_start, (nstart, alloc_start - nstart) :: rest)
      else
        some (alloc_start, (nstart, alloc_start - nstart) ::
          (alloc_start + required_size,
            (nstart + nsize) % U64 - (alloc_start + required_size)) :: rest)
    | none =>
      match ll_alloc_walk required_size align rest with
      | some (p, rest2) => some (p, (nstart, nsize) :: rest2)
      | none => none

/-- `GlobalAlloc::alloc` for the linked-list allocator. -/
def LinkedListAllocator.alloc (st : LinkedListAllocator) (size align : Nat) :
    Option Nat × LinkedListAllocator :=
  if size = 0 then (none, st)
  else if st.inited = false then (none, st)
  else match ll_alloc_walk (align_up (max size listNodeSize) align) align st.nodes with
    | some (p, nodes2) => (some p, { st with nodes := nodes2 })
    | none => (none, st)

/-- `GlobalAlloc::dealloc` for the linked-list allocator: push the freed block
onto the head of the list, no coalescing. -/
def LinkedListAllocator.dealloc (st : LinkedListAllocator) (p size align : Nat) :
    LinkedListAllocator :=
  if p = 0 then st
  else if st.inited = false then st
  else { st with nodes := (p, align_up (max size listNodeSize) align) :: st.nodes }

-- ===========================================================================
-- Fixed-size-block allocator (`memory/allocators/simple.rs`)
-- ===========================================================================

/-- The size classes `BLOCK_SIZES`. -/
def BLOCK_SIZES : List Nat := [8, 16, 32, 64, 128, 256, 512, 1024, 2048]

/-- One LIFO list of block addresses per size class, plus the fallback
free-list allocator. -/
structure FixedSizeBlockAllocator where
  list_heads : List (List Nat)
  fallback : LinkedListAllocator
  deriving DecidableEq, Repr

/-- `FixedSizeBlockAllocator::list_index`: position of the first block size
that is at least `max(layout.size(), layout.align())`. -/
def list_index (size align : Nat) : Option Nat :=
  BLOCK_SIZES.findIdx? (fun s => decide (max size align ≤ s))

/-- `GlobalAlloc::alloc` for the fixed-size-block allocator: pop from the
class list, else carve a block of exactly the class size (and class-size
alignment) from the fallback; oversized requests go straight to the fallback. -/
def FixedSizeBlockAllocator.alloc (st : FixedSizeBlockAllocator) (size align : Nat) :
    Option Nat × FixedSizeBlockAllocator :=
  if size = 0 then (none, st)
  else match list_index size align with
    | some idx =>
      match st.list_heads.getD idx [] with
      | b :: rest => (some b, { st with list_heads := st.list_heads.set idx rest })
      | [] =>
        ((st.fallback.alloc (BLOCK_SIZES.getD idx 0) (BLOCK_SIZES.getD idx 0)).1,
         { st with fallback :=
            (st.fallback.alloc (BLOCK_SIZES.getD idx 0) (BLOCK_SIZES.getD idx 0)).2 })
    | none =>
      ((st.fallback.alloc size align).1,
       { st with fallback := (st.fallback.alloc size align).2 })

/-- `GlobalAlloc::dealloc` for the fixed-size-block allocator: recompute the
class from the layout and push the block onto that class's list; oversized
blocks return to the fallback. -/
def FixedSizeBlockAllocator.dealloc (st : FixedSizeBlockAllocator) (p size align : Nat) :
    FixedSizeBlockAllocator :=
  if p = 0 then st
  else match list_index size align with
    | some idx =>
      { st with list_heads := st.list_heads.set idx (p :: st.list_heads.getD idx []) }
    | none => { st with fallback := st.fallback.dealloc p size align }

-- ===========================================================================
-- C10: zero-size allocation policy
-- ===========================================================================

/-- C10: On every initialized heap allocator — bump, linked-list,
fixed-size-block and stack — an allocation request of size 0 returns the null
pointer and leaves the allocator state unchanged. -/
theorem C10_zero_size_alloc :
    (∀ (st : BumpAllocator) (align : Nat), st.inited = true →
      st.alloc 0 align = (none, st)) ∧
    (∀ (st : LinkedListAllocator) (align : Nat), st.inited = true →
      st.alloc 0 align = (none, st)) ∧
    (∀ (st : FixedSizeBlockAllocator) (align : Nat), st.fallback.inited = true →
      st.alloc 0 align = (none, st)) ∧
    (∀ (st : StackAllocator) (align : Nat), st.inited = true →
      st.alloc 0 align = (none, st)) := by
  refine ⟨fun st align h => ?_, fun st align h => ?_, fun st align h => ?_,
    fun st align h => ?_⟩
  · simp [BumpAllocator.alloc, h]
  · simp [LinkedListAllocator.alloc]
  · simp [FixedSizeBlockAllocator.alloc]
  · simp [StackAllocator.alloc, h]

/-- Witness for C10 at concrete initialized allocator states. -/
theorem C10_zero_size_alloc_witness :
    (BumpAllocator.alloc ⟨0x1000, 0x2000, 0x1000, true⟩ 0 8 =
      (none, ⟨0x1000, 0x2000, 0x1000, true⟩)) ∧
    (LinkedListAllocator.alloc ⟨[(0x1000, 0x1000)], true⟩ 0 8 =
      (none, ⟨[(0x1000, 0x1000)], true⟩)) ∧
    (FixedSizeBlockAllocator.alloc ⟨List.replicate 9 [], ⟨[(0x1000, 0x1000)], true⟩⟩ 0 8 =
      (none, ⟨List.replicate 9 [], ⟨[(0x1000, 0x1000)], true⟩⟩)) ∧
    (StackAllocator.alloc ⟨0x1000, 0x2000, 0x1000, true⟩ 0 8 =
      (none, ⟨0x1000, 0x2000, 0x1000, true⟩)) :=
  ⟨C10_zero_size_alloc.1 _ 8 rfl, C10_zero_size_alloc.2.1 _ 8 rfl,
   C10_zero_size_alloc.2.2.1 _ 8 rfl, C10_zero_size_alloc.2.2.2 _ 8 rfl⟩

-- ===========================================================================
-- C5: stack allocator LIFO discipline
-- ===========================================================================

/-- One alloc-all-then-free-in-exact-reverse-order round on the stack
allocator: allocate the requests in order, then free each successful
allocation with its own size, last allocation first.  `none` when some
allocation fails. -/
def lifoRound (st : StackAllocator) : List (Nat × Nat) → Option StackAllocator
  | [] => some st
  | (size, align) :: rest =>
    match st.alloc size align with
    | (some p, st1) => (lifoRound st1 rest).map (fun st2 => st2.dealloc p size)
    | (none, _) => none

/-- All requests of the round succeed and none of them needs alignment
padding (each granted address equals the cursor at the time of the request). -/
def padFree (st : StackAllocator) : List (Nat × Nat) → Bool
  | [] => true
  | (size, align) :: rest =>
    (align_up st.top align == st.top) &&
      (match st.alloc size align with
       | (some _, st1) => padFree st1 rest
       | (none, _) => false)

/-- Counterexample to C5 as stated: two successful allocations (sizes 1 and
8, aligns 1 and 8) from cursor `0x1000`, freed in exact reverse allocation
order, leave the cursor at `0x1008`, not at the pre-allocation value
`0x1000`: the second allocation's alignment padding makes the first free's
compare-and-swap miss. -/
theorem C5_counterexample :
    (StackAllocator.alloc ⟨0x1000, 0x10000, 0x1000, true⟩ 1 1 =
      (some 0x1000, ⟨0x1000, 0x10000, 0x1001, true⟩)) ∧
    (StackAllocator.alloc ⟨0x1000, 0x10000, 0x1001, true⟩ 8 8 =
      (some 0x1008, ⟨0x1000, 0x10000, 0x1010, true⟩)) ∧
    (StackAllocator.dealloc ⟨0x1000, 0x10000, 0x1010, true⟩ 0x1008 8 =
      ⟨0x1000, 0x10000, 0x1008, true⟩) ∧
    (StackAllocator.dealloc ⟨0x1000, 0x10000, 0x1008, true⟩ 0x1000 1 =
      ⟨0x1000, 0x10000, 0x1008, true⟩) ∧
    (0x1008 ≠ 0x1000) := by
  refine ⟨?_, ?_, ?_, ?_, by decide⟩ <;> decide

/-- Inversion of a successful stack allocation. -/
theorem stackAlloc_some {st : StackAllocator} {size align p : Nat} {st1 : StackAllocator}
    (h : st.alloc size align = (some p, st1)) :
    st.inited = true ∧ size ≠ 0 ∧ p = align_up st.top align ∧ p + size < U64 ∧
    p + size ≤ st.stop ∧ st1 = { st with top := p + size } := by
  unfold StackAllocator.alloc at h
  split at h
  · simp at h
  · split at h
    · simp at h
    · rename_i hin hsz
      split at h
      · simp at h
      · rename_i new_top hca
        unfold checkedAdd at hca
        split at hca
        · rename_i hlt
          split at h
          · simp at h
          · rename_i hgt
            obtain ⟨hp, hst⟩ := Prod.mk.injEq _ _ _ _ ▸ h
            obtain rfl : p = align_up st.top align := (Option.some.injEq _ _ ▸ hp).symm
            obtain rfl : align_up st.top align + size = new_top := Option.some.injEq _ _ ▸ hca
            refine ⟨by simpa using hin, hsz, rfl, by omega, by omega, hst.symm⟩
        · simp at hca

/-- C5 as amended: freeing in exact reverse allocation order restores the
pre-allocation cursor provided no allocation of the round needed alignment
padding (in general each in-order free only rolls the cursor back to the
allocation's aligned address, leaving the padding); a free whose
`ptr.saturating_add(size)` misses the cursor — and likewise a null free —
leaves the allocator state unchanged. -/
theorem C5_stack_lifo_amended :
    (∀ (st : StackAllocator) (reqs : List (Nat × Nat)) (st2 : StackAllocator),
      st.stop < U64 → st.top ≠ 0 → padFree st reqs = true →
      lifoRound st reqs = some st2 → st2 = st) ∧
    (∀ (st : StackAllocator) (p size : Nat), p ≠ 0 → satAdd p size ≠ st.top →
      st.dealloc p size = st) ∧
    (∀ (st : StackAllocator) (size : Nat), st.dealloc 0 size = st) := by
  refine ⟨?_, ?_, ?_⟩
  · intro st reqs
    induction reqs generalizing st with
    | nil =>
      intro st2 _ _ _ hr
      simp [lifoRound] at hr
      exact hr.symm
    | cons hd tl ih =>
      intro st2 hstop htop hpf hr
      obtain ⟨size, align⟩ := hd
      rw [padFree] at hpf
      rw [lifoRound] at hr
      rcases halloc : StackAllocator.alloc st size align with ⟨r, st1⟩
      rw [halloc] at hpf hr
      cases r with
      | none => simp at hr
      | some p =>
        simp only [Bool.and_eq_true, beq_iff_eq] at hpf
        obtain ⟨hpad, hrec⟩ := hpf
        obtain ⟨hin, hsz, hp, hlt, hle, hst1⟩ := stackAlloc_some halloc
        rw [Option.map_eq_some'] at hr
        obtain ⟨st3, hlr, hst2⟩ := hr
        have h3 : st3 = st1 :=
          ih st1 st3 (by rw [hst1]; exact hstop) (by rw [hst1]; simp; omega) hrec hlr
        subst h3
        subst hst2
        subst hst1
        have hpne : p ≠ 0 := by rw [hp, hpad]; exact htop
        have hsat : satAdd p size = p + size := by
          unfold satAdd
          exact Nat.min_eq_left (by omega)
        unfold StackAllocator.dealloc
        rw [if_neg hpne, hsat, if_pos rfl]
        rw [hp, hpad]
  · intro st p size hp hne
    unfold StackAllocator.dealloc
    rw [if_neg hp, if_neg (fun h => hne (Eq.symm h))]
  · intro st size
    simp [StackAllocator.dealloc]

/-- Witness for the amended C5: a pad-free round of two allocations freed in
reverse order restores the allocator exactly, and an out-of-order free is a
no-op. -/
theorem C5_stack_lifo_amended_witness :
    ((⟨0x1000, 0x10000, 0x1000, true⟩ : StackAllocator) =
      ⟨0x1000, 0x10000, 0x1000, true⟩) ∧
    (StackAllocator.dealloc ⟨0x1000, 0x10000, 0x1010, true⟩ 0x1001 3 =
      ⟨0x1000, 0x10000, 0x1010, true⟩) :=
  ⟨C5_stack_lifo_amended.1 ⟨0x1000, 0x10000, 0x1000, true⟩ [(4, 1), (8, 1)]
      ⟨0x1000, 0x10000, 0x1000, true⟩ (by norm_num [U64]) (by decide) (by decide) (by decide),
   C5_stack_lifo_amended.2.1 ⟨0x1000, 0x10000, 0x1010, true⟩ 0x1001 3 (by decide) (by decide)⟩

-- ===========================================================================
-- List helpers
-- ===========================================================================

theorem getD_set_same {α : Type} (l : List α) (i : Nat) (x d : α) (h : i < l.length) :
    (l.set i x).getD i d = x := by
  simp [List.getD_eq_getElem?_getD, List.getElem?_set_self h]

theorem getD_set_other {α : Type} (l : List α) (i j : Nat) (x d : α) (h : i ≠ j) :
    (l.set i x).getD j d = l.getD j d := by
  simp [List.getD_eq_getElem?_getD, List.getElem?_set_ne h]

theorem getD_len_le {α : Type} (l : List α) (i : Nat) (d : α) (h : l.length ≤ i) :
    l.getD i d = d := by
  simp [List.getD_eq_getElem?_getD, List.getElem?_eq_none h]

theorem set_getD_self {α : Type} :
    ∀ (l : List α) (i : Nat) (d : α), i < l.length → l.set i (l.getD i d) = l
  | [], i, _, h => by simp at h
  | _ :: _, 0, _, _ => by simp
  | a :: l, i + 1, d, h => by
    show a :: l.set i ((a :: l).getD (i + 1) d) = a :: l
    have h2 : (a :: l).getD (i + 1) d = l.getD i d := rfl
    rw [h2, set_getD_self l i d (by simpa using h)]

-- ===========================================================================
-- Size-class arithmetic for the fixed-size-block allocator
-- ===========================================================================

/-- `list_index` as a chain of threshold tests on `max size align`. -/
theorem list_index_eq (size align : Nat) :
    list_index size align =
      (if max size align ≤ 8 then some 0 else if max size align ≤ 16 then some 1
       else if max size align ≤ 32 then some 2 else if max size align ≤ 64 then some 3
       else if max size align ≤ 128 then some 4 else if max size align ≤ 256 then some 5
       else if max size align ≤ 512 then some 6 else if max size align ≤ 1024 then some 7
       else if max size align ≤ 2048 then some 8 else none) := by
  simp only [list_index, BLOCK_SIZES, List.findIdx?_cons, List.findIdx?_nil, decide_eq_true_eq]

/-- A found class is at most index 8, is at least the request, and every
smaller class is strictly below the request. -/
theorem list_index_facts {size align idx : Nat} (h : list_index size align = some idx) :
    idx < 9 ∧ max size align ≤ BLOCK_SIZES.getD idx 0 ∧
      ∀ j, j < idx → BLOCK_SIZES.getD j 0 < max size align := by
  rw [list_index_eq] at h
  split_ifs at h <;> injection h with h <;> subst h <;>
    refine ⟨by omega, by simp [BLOCK_SIZES]; omega, fun j hj => ?_⟩ <;>
    interval_cases j <;> simp [BLOCK_SIZES] <;> omega

/-- No class fits exactly when the request exceeds the largest class. -/
theorem list_index_none (size align : Nat) :
    list_index size align = none ↔ 2048 < max size align := by
  rw [list_index_eq]
  split_ifs <;> simp <;> omega

/-- Each size class is the power of two `2^(idx+3)`. -/
theorem block_size_pow (idx : Nat) (h : idx < 9) :
    BLOCK_SIZES.getD idx 0 = 2 ^ (idx + 3) := by
  interval_cases idx <;> rfl

-- ===========================================================================
-- C6: alignment of returned addresses
-- ===========================================================================

/-- Inversion of a successful bump allocation: the address is the aligned
cursor. -/
theorem bumpAlloc_some {st : BumpAllocator} {size align p : Nat} {st' : BumpAllocator}
    (h : st.alloc size align = (some p, st')) : p = align_up st.next align := by
  unfold BumpAllocator.alloc at h
  split at h
  · simp at h
  split at h
  · simp at h
  split at h
  · simp at h
  split at h
  · simp at h
  · simp only [Prod.mk.injEq, Option.some.injEq] at h
    exact h.1.symm

/-- Every address produced by the first-fit walk is `align_up` of some node
start. -/
theorem ll_alloc_walk_aligned {req align : Nat} :
    ∀ {nodes : List (Nat × Nat)} {p : Nat} {rest : List (Nat × Nat)},
      ll_alloc_walk req align nodes = some (p, rest) → ∃ a, p = align_up a align := by
  intro nodes
  induction nodes with
  | nil => intro p rest h; simp [ll_alloc_walk] at h
  | cons nd tl ih =>
    intro p rest h
    obtain ⟨nstart, nsize⟩ := nd
    rw [ll_alloc_walk] at h
    split at h
    · rename_i as har
      have haligned : as = align_up nstart align := by
        unfold alloc_from_region at har
        split at har
        · simp at har
        split at har
        · simp at har
        split at har
        · simp at har
        · simp only [Option.some.injEq] at har
          exact har.symm
      split_ifs at h <;>
        · simp only [Option.some.injEq, Prod.mk.injEq] at h
          exact ⟨nstart, h.1.symm.trans haligned⟩
    · rcases hrec : ll_alloc_walk req align tl with _ | ⟨p2, rest2⟩
      · rw [hrec] at h
        simp at h
      · rw [hrec] at h
        simp only [Option.some.injEq, Prod.mk.injEq] at h
        obtain ⟨a, ha⟩ := ih hrec
        exact ⟨a, by rw [← h.1]; exact ha⟩

/-- Inversion of a successful linked-list allocation. -/
theorem llAlloc_some {st : LinkedListAllocator} {size align p : Nat}
    {st' : LinkedListAllocator} (h : st.alloc size align = (some p, st')) :
    ∃ a, p = align_up a align := by
  unfold LinkedListAllocator.alloc at h
  split at h
  · simp at h
  split at h
  · simp at h
  rcases heq : ll_alloc_walk (align_up (max size listNodeSize) align) align st.nodes
    with _ | ⟨q, nodes2⟩
  · rw [heq] at h
    simp at h
  · rw [heq] at h
    simp only [Prod.mk.injEq, Option.some.injEq] at h
    exact h.1 ▸ ll_alloc_walk_aligned heq

/-- The class-membership invariant of the fixed-size-block allocator: every
block parked on a class list is a multiple of that class's size.  It holds
whenever each freed block was returned with the layout it was allocated
with, which is the hypothesis of the claim. -/
def fsba_inv (st : FixedSizeBlockAllocator) : Prop :=
  ∀ idx, ∀ a ∈ st.list_heads.getD idx [], BLOCK_SIZES.getD idx 0 ∣ a

/-- The invariant follows from its restriction to the nine real classes. -/
theorem fsba_inv_of_bounded (st : FixedSizeBlockAllocator)
    (h : ∀ idx, idx < 9 → ∀ a ∈ st.list_heads.getD idx [], BLOCK_SIZES.getD idx 0 ∣ a)
    (hlen : st.list_heads.length ≤ 9) : fsba_inv st := by
  intro idx a ha
  by_cases h9 : idx < 9
  · exact h idx h9 a ha
  · rw [getD_len_le _ _ _ (by omega)] at ha
    cases ha

/-- Powers of two divide larger powers of two. -/
theorem pow2_dvd_of_le {k m : Nat} (h : 2 ^ k ≤ 2 ^ m) : (2 : Nat) ^ k ∣ 2 ^ m :=
  pow_dvd_pow 2 ((Nat.pow_le_pow_iff_right (by omega)).mp h)

/-- Inversion of a successful fixed-size-block allocation: the address is a
multiple of the class size when a class fits, comes from the fallback's
aligned carve otherwise, and the class invariant is preserved. -/
theorem fsbaAlloc_some {st : FixedSizeBlockAllocator} {size align p : Nat}
    {st' : FixedSizeBlockAllocator} (hinv : fsba_inv st)
    (h : st.alloc size align = (some p, st')) :
    (∀ idx, list_index size align = some idx → BLOCK_SIZES.getD idx 0 ∣ p) ∧
    fsba_inv st' ∧
    (list_index size align = none → ∃ a, p = align_up a align) := by
  unfold FixedSizeBlockAllocator.alloc at h
  split at h
  · simp at h
  split at h
  · rename_i idx hli
    split at h
    · rename_i b rest hgd
      simp only [Prod.mk.injEq, Option.some.injEq] at h
      obtain ⟨h1, h2⟩ := h
      have hlen : idx < st.list_heads.length := by
        by_contra hc
        rw [getD_len_le _ _ _ (by omega)] at hgd
        cases hgd
      have hdvd : BLOCK_SIZES.getD idx 0 ∣ p := by
        rw [← h1]
        exact hinv idx b (hgd ▸ List.mem_cons_self b rest)
      refine ⟨?_, ?_, ?_⟩
      · intro idx' hx
        rw [hli] at hx
        injection hx with hx
        exact hx ▸ hdvd
      · intro j a ha2
        rw [← h2] at ha2
        simp only at ha2
        by_cases hj : idx = j
        · subst hj
          rw [getD_set_same _ _ _ _ hlen] at ha2
          exact hinv idx a (hgd ▸ List.mem_cons_of_mem b ha2)
        · rw [getD_set_other _ _ _ _ _ hj] at ha2
          exact hinv j a ha2
      · intro hx
        rw [hli] at hx
        cases hx
    · rename_i hgd
      simp only [Prod.mk.injEq] at h
      obtain ⟨h1, h2⟩ := h
      have hpair : st.fallback.alloc (BLOCK_SIZES.getD idx 0) (BLOCK_SIZES.getD idx 0) =
          (some p, (st.fallback.alloc (BLOCK_SIZES.getD idx 0) (BLOCK_SIZES.getD idx 0)).2) := by
        rw [← h1]
      obtain ⟨hidx9, _, _⟩ := list_index_facts hli
      obtain ⟨a, ha⟩ := llAlloc_some hpair
      have hdvd : BLOCK_SIZES.getD idx 0 ∣ p := by
        rw [ha, block_size_pow idx hidx9]
        exact align_up_dvd a (idx + 3) (by omega)
      refine ⟨?_, ?_, ?_⟩
      · intro idx' hx
        rw [hli] at hx
        injection hx with hx
        exact hx ▸ hdvd
      · intro j a ha2
        rw [← h2] at ha2
        exact hinv j a ha2
      · intro hx
        rw [hli] at hx
        cases hx
  · rename_i hli
    simp only [Prod.mk.injEq] at h
    obtain ⟨h1, h2⟩ := h
    have hpair : st.fallback.alloc size align = (some p, (st.fallback.alloc size align).2) := by
      rw [← h1]
    refine ⟨?_, ?_, ?_⟩
    · intro idx hx
      rw [hli] at hx
      cases hx
    · intro j a ha
      rw [← h2] at ha
      exact hinv j a ha
    · intro _
      exact llAlloc_some hpair

/-- Freeing a class-size-aligned block preserves the class invariant. -/
theorem fsbaDealloc_inv {st : FixedSizeBlockAllocator} {p size align : Nat}
    (hinv : fsba_inv st)
    (hdvd : ∀ idx, list_index size align = some idx → BLOCK_SIZES.getD idx 0 ∣ p) :
    fsba_inv (st.dealloc p size align) := by
  unfold FixedSizeBlockAllocator.dealloc
  split
  · exact hinv
  split
  · rename_i idx hli
    intro j a ha
    simp only at ha
    by_cases hlen : idx < st.list_heads.length
    · by_cases hj : idx = j
      · subst hj
        rw [getD_set_same _ _ _ _ hlen] at ha
        rcases List.mem_cons.mp ha with rfl | ha2
        · exact hdvd idx hli
        · exact hinv idx a ha2
      · rw [getD_set_other _ _ _ _ _ hj] at ha
        exact hinv j a ha
    · rw [List.set_eq_of_length_le (by omega)] at ha
      exact hinv j a ha
  · rename_i hli
    intro j a ha
    exact hinv j a ha

/-- C6: For every layout whose alignment is a power of two, any non-null
address returned by `alloc` of the bump, linked-list, stack or
fixed-size-block allocator is a multiple of the alignment.  For the
fixed-size-block allocator this holds under its class invariant `fsba_inv`,
which is preserved by `alloc`, and by `dealloc` whenever the freed block is
returned with the layout it was allocated with (its address then divides its
class size, which is what `alloc` guarantees). -/
theorem C6_alloc_alignment :
    (∀ (st : BumpAllocator) (size align k p : Nat) (st' : BumpAllocator), k ≤ 64 →
      align = 2 ^ k → st.alloc size align = (some p, st') → align ∣ p) ∧
    (∀ (st : LinkedListAllocator) (size align k p : Nat) (st' : LinkedListAllocator),
      k ≤ 64 → align = 2 ^ k → st.alloc size align = (some p, st') → align ∣ p) ∧
    (∀ (st : StackAllocator) (size align k p : Nat) (st' : StackAllocator), k ≤ 64 →
      align = 2 ^ k → st.alloc size align = (some p, st') → align ∣ p) ∧
    (∀ (st : FixedSizeBlockAllocator) (size align k p : Nat)
      (st' : FixedSizeBlockAllocator), k ≤ 64 → align = 2 ^ k → fsba_inv st →
      st.alloc size align = (some p, st') →
      (align ∣ p ∧ fsba_inv st' ∧
        ∀ idx, list_index size align = some idx → BLOCK_SIZES.getD idx 0 ∣ p)) ∧
    (∀ (st : FixedSizeBlockAllocator) (size align p : Nat), fsba_inv st →
      (∀ idx, list_index size align = some idx → BLOCK_SIZES.getD idx 0 ∣ p) →
      fsba_inv (st.dealloc p size align)) := by
  refine ⟨?_, ?_, ?_, ?_, ?_⟩
  · intro st size align k p st' hk halign h
    subst halign
    rw [bumpAlloc_some h]
    exact align_up_dvd st.next k hk
  · intro st size align k p st' hk halign h
    subst halign
    obtain ⟨a, ha⟩ := llAlloc_some h
    rw [ha]
    exact align_up_dvd a k hk
  · intro st size align k p st' hk halign h
    subst halign
    rw [(stackAlloc_some h).2.2.1]
    exact align_up_dvd st.top k hk
  · intro st size align k p st' hk halign hinv h
    obtain ⟨hcls, hinv', hfb⟩ := fsbaAlloc_some hinv h
    refine ⟨?_, hinv', hcls⟩
    rcases hli : list_index size align with _ | idx
    · obtain ⟨a, ha⟩ := hfb hli
      subst halign
      rw [ha]
      exact align_up_dvd a k hk
    · obtain ⟨hidx9, hmax, _⟩ := list_index_facts hli
      have hcd := hcls idx hli
      have hak : align ≤ BLOCK_SIZES.getD idx 0 := le_trans (le_max_right size align) hmax
      have : align ∣ BLOCK_SIZES.getD idx 0 := by
        rw [block_size_pow idx hidx9] at hak ⊢
        subst halign
        exact pow2_dvd_of_le hak
      exact dvd_trans this hcd
  · intro st size align p hinv hdvd
    exact fsbaDealloc_inv hinv hdvd

/-- Witness for C6 at concrete allocator states: all four allocators return
8-aligned addresses for an (8, 8) layout, and the fixed-size-block invariant
survives the round trip. -/
theorem C6_alloc_alignment_witness :
    ((8 : Nat) ∣ 0x1000) ∧ ((8 : Nat) ∣ 0x2000) ∧ ((8 : Nat) ∣ 0x3000) ∧
    (((8 : Nat) ∣ 0x4000) ∧
      fsba_inv ⟨List.replicate 9 [], ⟨[(0x4010, 0xFF0)], true⟩⟩ ∧
      ∀ idx, list_index 8 8 = some idx → BLOCK_SIZES.getD idx 0 ∣ 0x4000) ∧
    fsba_inv (FixedSizeBlockAllocator.dealloc
      ⟨List.replicate 9 [], ⟨[(0x4010, 0xFF0)], true⟩⟩ 0x4000 8 8) := by
  refine ⟨?_, ?_, ?_, ?_, ?_⟩
  · exact C6_alloc_alignment.1 ⟨0x1000, 0x2000, 0x1000, true⟩ 8 8 3 0x1000
      ⟨0x1000, 0x2000, 0x1008, true⟩ (by decide) (by decide) (by decide)
  · exact C6_alloc_alignment.2.1 ⟨[(0x2000, 0x1000)], true⟩ 8 8 3 0x2000
      ⟨[(0x2010, 0xFF0)], true⟩ (by decide) (by decide) (by decide)
  · exact C6_alloc_alignment.2.2.1 ⟨0x3000, 0x4000, 0x3000, true⟩ 8 8 3 0x3000
      ⟨0x3000, 0x4000, 0x3008, true⟩ (by decide) (by decide) (by decide)
  · exact C6_alloc_alignment.2.2.2.1 ⟨List.replicate 9 [], ⟨[(0x4000, 0x1000)], true⟩⟩
      8 8 3 0x4000 ⟨List.replicate 9 [], ⟨[(0x4010, 0xFF0)], true⟩⟩ (by decide) (by decide)
      (fsba_inv_of_bounded _ (by decide) (by decide)) (by decide)
  · exact C6_alloc_alignment.2.2.2.2 ⟨List.replicate 9 [], ⟨[(0x4010, 0xFF0)], true⟩⟩
      8 8 0x4000 (fsba_inv_of_bounded _ (by decide) (by decide))
      (fun idx h => by rw [list_index_eq] at h; simp at h; rw [← h]; decide)

-- ===========================================================================
-- C7: class selection and LIFO reuse in the fixed-size-block allocator
-- ===========================================================================

/-- C7: A request is served from the smallest class at least `max(S, A)`
(`list_index`), falling back exactly when every class is too small or the
class list is empty; a freed block is pushed onto that same class's list and
is the next block served from it, so freeing and immediately re-allocating
the same shape returns the same address and restores the allocator state. -/
theorem C7_fixed_size_block_lifo :
    (∀ size align idx, list_index size align = some idx →
      (idx < 9 ∧ max size align ≤ BLOCK_SIZES.getD idx 0 ∧
        ∀ j, j < idx → BLOCK_SIZES.getD j 0 < max size align)) ∧
    (∀ size align, list_index size align = none ↔ 2048 < max size align) ∧
    (∀ (st : FixedSizeBlockAllocator) (size align idx b : Nat) (rest : List Nat),
      size ≠ 0 → list_index size align = some idx →
      st.list_heads.getD idx [] = b :: rest →
      st.alloc size align = (some b, { st with list_heads := st.list_heads.set idx rest })) ∧
    (∀ (st : FixedSizeBlockAllocator) (size align idx : Nat), size ≠ 0 →
      list_index size align = some idx → st.list_heads.getD idx [] = [] →
      st.alloc size align =
        ((st.fallback.alloc (BLOCK_SIZES.getD idx 0) (BLOCK_SIZES.getD idx 0)).1,
         { st with fallback :=
            (st.fallback.alloc (BLOCK_SIZES.getD idx 0) (BLOCK_SIZES.getD idx 0)).2 })) ∧
    (∀ (st : FixedSizeBlockAllocator) (size align idx p : Nat), p ≠ 0 →
      list_index size align = some idx → idx < st.list_heads.length →
      (st.dealloc p size align).list_heads.getD idx [] = p :: st.list_heads.getD idx []) ∧
    (∀ (st : FixedSizeBlockAllocator) (size align idx p : Nat), p ≠ 0 → size ≠ 0 →
      list_index size align = some idx → idx < st.list_heads.length →
      (st.dealloc p size align).alloc size align = (some p, st)) := by
  refine ⟨fun size align idx h => list_index_facts h, fun size align => list_index_none size align,
    ?_, ?_, ?_, ?_⟩
  · intro st size align idx b rest hsz hli hgd
    rw [List.getD_eq_getElem?_getD] at hgd
    simp [FixedSizeBlockAllocator.alloc, hsz, hli, hgd]
  · intro st size align idx hsz hli hgd
    rw [List.getD_eq_getElem?_getD] at hgd
    simp [FixedSizeBlockAllocator.alloc, hsz, hli, hgd]
  · intro st size align idx p hp hli hlen
    have hstep : st.dealloc p size align =
        { st with list_heads := st.list_heads.set idx (p :: st.list_heads.getD idx []) } := by
      simp [FixedSizeBlockAllocator.dealloc, hp, hli]
    rw [hstep]
    exact getD_set_same _ _ _ _ hlen
  · intro st size align idx p hp hsz hli hlen
    have hstep : st.dealloc p size align =
        { st with list_heads := st.list_heads.set idx (p :: st.list_heads.getD idx []) } := by
      simp [FixedSizeBlockAllocator.dealloc, hp, hli]
    rw [hstep]
    have hgd2 : (st.list_heads.set idx (p :: st.list_heads.getD idx [])).getD idx [] =
        p :: st.list_heads.getD idx [] := getD_set_same _ _ _ _ hlen
    simp only [FixedSizeBlockAllocator.alloc, if_neg hsz, hli, hgd2]
    rw [List.set_set, set_getD_self _ _ _ hlen]

/-- Witness for C7: concrete class selection, pop, push and free-then-realloc
round trip. -/
theorem C7_fixed_size_block_lifo_witness :
    (0 < 9 ∧ max 8 8 ≤ BLOCK_SIZES.getD 0 0 ∧
      ∀ j, j < 0 → BLOCK_SIZES.getD j 0 < max 8 8) ∧
    (list_index 4096 1 = none ↔ 2048 < max 4096 1) ∧
    (FixedSizeBlockAllocator.alloc ⟨[[0x5000], [], [], [], [], [], [], [], []], ⟨[], true⟩⟩ 8 8 =
      (some 0x5000, ⟨[[], [], [], [], [], [], [], [], []], ⟨[], true⟩⟩)) ∧
    ((FixedSizeBlockAllocator.dealloc
        ⟨List.replicate 9 [], ⟨[], true⟩⟩ 0x6000 8 8).alloc 8 8 =
      (some 0x6000, ⟨List.replicate 9 [], ⟨[], true⟩⟩)) := by
  refine ⟨C7_fixed_size_block_lifo.1 8 8 0 (by decide),
    C7_fixed_size_block_lifo.2.1 4096 1, ?_, ?_⟩
  · have h := C7_fixed_size_block_lifo.2.2.1
      ⟨[[0x5000], [], [], [], [], [], [], [], []], ⟨[], true⟩⟩ 8 8 0 0x5000 []
      (by decide) (by decide) (by decide)
    exact h.trans (by decide)
  · exact C7_fixed_size_block_lifo.2.2.2.2.2 ⟨List.replicate 9 [], ⟨[], true⟩⟩ 8 8 0 0x6000
      (by decide) (by decide) (by decide) (by decide)

-- ===========================================================================
-- Buddy allocator (`allocators/simple.rs`, `BuddyAllocator`)
-- ===========================================================================

/-- `MAX_ORDER` of the buddy allocator. -/
def MAX_ORDER : Nat := 11

/-- The buddy allocator: one intrusive free list of block addresses per
order, plus the region bounds. -/
structure BuddyAllocator where
  free_lists : List (List Nat)
  heap_start : Nat
  heap_size : Nat
  deriving DecidableEq, Repr

/-- `size.next_power_of_two().trailing_zeros()`: the smallest `k` with
`size ≤ 2^k` (and `0` for `size = 0`, as in Rust where
`0.next_power_of_two() = 1`).  Computed by scanning the 65 possible u64
exponents so that the definition evaluates structurally. -/
def log2ceil (n : Nat) : Nat :=
  (List.range 65).findIdx (fun k => decide (n ≤ 2 ^ k))

/-- `BuddyAllocator::size_to_order`. -/
def size_to_order (size : Nat) : Nat :=
  min (log2ceil size) (MAX_ORDER - 1)

/-- `BuddyAllocator::init(heap_start, heap_size)` on a fresh allocator: one
block, the whole region, on the list of the region's order. -/
def BuddyAllocator.init (heap_start heap_size : Nat) : BuddyAllocator :=
  { free_lists := (List.replicate MAX_ORDER ([] : List Nat)).set
      (size_to_order heap_size) [heap_start],
    heap_start := heap_start, heap_size := heap_size }

/-- The tail of `BuddyAllocator::split_block` after the recursive refill:
`free_lists[order].take()?` detaches the whole chain of `order`'s list and
yields its head block (the chain now hangs off the returned block, which
every caller discards); the buddy at `block + 2^(order-1)` is pushed onto
the list one order below. -/
def splitTake (st : BuddyAllocator) (order : Nat) :
    Except Unit (Option Nat × BuddyAllocator) :=
  match st.free_lists.getD order [] with
  | [] => .ok (none, st)
  | b :: _rest =>
    .ok (some b, { st with free_lists :=
      ((st.free_lists.set order []).set (order - 1)
        ((b + 2 ^ (order - 1)) :: st.free_lists.getD (order - 1) [])) })

/-- `BuddyAllocator::split_block(order)`, with an explicit fuel so that the
definition evaluates structurally (the recursion is bounded by
`MAX_ORDER - order`, so any fuel beyond `MAX_ORDER + 1` is exact).
`some (.error ())` is the Rust index-out-of-bounds panic on
`free_lists[order]` with `order ≥ MAX_ORDER`; `none` is exhausted fuel. -/
def splitBlockF : Nat → BuddyAllocator → Nat →
    Option (Except Unit (Option Nat × BuddyAllocator))
  | 0, _, _ => none
  | fuel + 1, st, order =>
    if order = 0 then some (.ok (none, st))
    else if order < MAX_ORDER then
      if (st.free_lists.getD order []).isEmpty then
        match splitBlockF fuel st (order + 1) with
        | none => none
        | some (.error e) => some (.error e)
        | some (.ok (none, st1)) => some (.ok (none, st1))
        | some (.ok (some _, st1)) => some (splitTake st1 order)
      else some (splitTake st order)
    else some (.error ())

/-- The inner `while current_order > order` loop of `BuddyAllocator::alloc`.
Neither loop variable changes in the body, so the loop can only be left by a
panic inside `split_block`; the fuel bounds how many iterations are
examined (`none` = still looping). -/
def allocWhileF : Nat → Nat → Nat → BuddyAllocator → Option (Except Unit BuddyAllocator)
  | 0, _, _, _ => none
  | fuel + 1, cur, order, st =>
    if cur > order then
      match splitBlockF 12 st cur with
      | none => none
      | some (.error e) => some (.error e)
      | some (.ok (_, st1)) => allocWhileF fuel cur order st1
    else some (.ok st)

/-- The `for current_order in order..MAX_ORDER` loop of
`BuddyAllocator::alloc`; the first argument is the number of remaining
iterations (`MAX_ORDER - cur` at every call site). -/
def allocForF : Nat → Nat → Nat → BuddyAllocator → Nat →
    Option (Except Unit (Option Nat × BuddyAllocator))
  | 0, _, _, st, _ => some (.ok (none, st))
  | rem + 1, order, fuel, st, cur =>
    if (st.free_lists.getD cur []).isEmpty then
      allocForF rem order fuel st (cur + 1)
    else
      match allocWhileF fuel cur order st with
      | none => none
      | some (.error e) => some (.error e)
      | some (.ok st1) =>
        match st1.free_lists.getD order [] with
        | b :: rest =>
          some (.ok (some b, { st1 with free_lists := st1.free_lists.set order rest }))
        | [] => allocForF rem order fuel st1 (cur + 1)

/-- `GlobalAlloc::alloc` for the buddy allocator: round the request up to its
order and run the search loop. -/
def BuddyAllocator.alloc (st : BuddyAllocator) (size align fuel : Nat) :
    Option (Except Unit (Option Nat × BuddyAllocator)) :=
  allocForF (MAX_ORDER - size_to_order (max size align)) (size_to_order (max size align))
    fuel st (size_to_order (max size align))

/-- C4: evaluation of the buddy allocator at the claim's scenario, `k = 4`.
A region of order `k+1 = 5` (32 bytes) is initialized as one order-5 block;
the claim says the first two order-4 allocations succeed and the third
returns null.  Instead, the very first order-4 allocation panics: the inner
split loop `while current_order > order` never updates either variable, so
after the first `split_block` (whose freshly split block is discarded) the
second `split_block` walks up the empty lists past `MAX_ORDER` and indexes
`free_lists[11]` out of bounds — for every fuel bound of at least two loop
iterations. -/
theorem C4_buddy_order_k_alloc :
    ((32 : Nat) = 2 ^ (4 + 1) ∧ 4 + 1 < MAX_ORDER) ∧
    (BuddyAllocator.init 0x1000 32).free_lists.getD (4 + 1) [] = [0x1000] ∧
    size_to_order (max 16 1) = 4 ∧
    (∀ fuel, 2 ≤ fuel →
      BuddyAllocator.alloc (BuddyAllocator.init 0x1000 32) 16 1 fuel = some (.error ())) := by
  refine ⟨⟨by norm_num, by decide⟩, by decide, by decide, ?_⟩
  intro fuel hf
  obtain ⟨f, rfl⟩ : ∃ f, fuel = f + 2 := ⟨fuel - 2, by omega⟩
  rfl

/-- Witness for C4 at the concrete fuel bound 5. -/
theorem C4_buddy_order_k_alloc_witness :
    BuddyAllocator.alloc (BuddyAllocator.init 0x1000 32) 16 1 5 = some (.error ()) :=
  C4_buddy_order_k_alloc.2.2.2 5 (by decide)

-- ===========================================================================
-- Page-table mapper (`memory/mod.rs`)
-- ===========================================================================

/-- The page-table state: the active root table's physical address (`CR3`),
physical memory as a map from table base address and entry index to the raw
64-bit entry, and the physical frame allocator's cursor and end
(`NEXT_PHYSICAL_FRAME` / `PHYSICAL_MEMORY_END`).  The physical-memory offset
is irrelevant to the model: `access_page_table` is address translation only. -/
structure PTState where
  cr3 : Nat
  mem : Nat → Nat → Nat
  next_frame : Nat
  mem_end : Nat

/-- `MapError` from `memory/mod.rs`. -/
inductive MapError where
  | OutOfMemory
  | AlreadyMapped
  | InvalidAddress
  | WalkError
  deriving DecidableEq, Repr

/-- The physical-address mask of a page-table entry (`PageTableEntry::addr`). -/
def ADDR_MASK : Nat := 0x000ffffffffff000

/-- `flags().contains(PRESENT)`: bit 0. -/
def entry_present (e : Nat) : Bool := e.testBit 0

/-- `flags().contains(HUGE_PAGE)`: bit 7. -/
def entry_huge (e : Nat) : Bool := e.testBit 7

/-- `flags().contains(NO_EXECUTE)`: bit 63. -/
def entry_nx (e : Nat) : Bool := e.testBit 63

/-- `PageTableEntry::addr()`. -/
def entry_addr (e : Nat) : Nat := e &&& ADDR_MASK

/-- `PageTableEntry::frame()`: `Ok` iff present and not huge. -/
def frameOf (e : Nat) : Option Nat :=
  if entry_present e && ! entry_huge e then some (entry_addr e) else none

/-- The four 9-bit level indices of a virtual address
(`Page::p4_index` … `p1_index` of the containing page). -/
def p4_index (v : Nat) : Nat := (v >>> 39) &&& 0x1ff

def p3_index (v : Nat) : Nat := (v >>> 30) &&& 0x1ff

def p2_index (v : Nat) : Nat := (v >>> 21) &&& 0x1ff

def p1_index (v : Nat) : Nat := (v >>> 12) &&& 0x1ff

/-- Write one page-table entry (`entry.set_frame(..)` / `new_p4[i] = ..`). -/
def setEntry (st : PTState) (b i v : Nat) : PTState :=
  { st with mem := fun b' i' => if b' = b ∧ i' = i then v else st.mem b' i' }

/-- `zero_frame` / the `ptr::write_bytes(.., 0, 4096)` of a fresh table. -/
def zero_frame (st : PTState) (f : Nat) : PTState :=
  { st with mem := fun b' i' => if b' = f then 0 else st.mem b' i' }

/-- `GlobalFrameAllocator::allocate_frame`: align the cursor up to 4 KiB,
fail if the next cursor would pass `PHYSICAL_MEMORY_END`, else bump
(the compare-and-swap succeeds sequentially). -/
def allocate_frame (st : PTState) : Option (Nat × PTState) :=
  if (align_up st.next_frame 4096 + 4096) % U64 > st.mem_end then none
  else some (align_up st.next_frame 4096,
    { st with next_frame := (align_up st.next_frame 4096 + 4096) % U64 })

/-- `PRESENT | WRITABLE`, the parent flags of `map_single_page`. -/
def parent_flags : Nat := 3

/-- One intermediate level of the `map_single_page` walk: if the entry is
unused, allocate a frame, zero it and install it with the parent flags; else
if it carries `NO_EXECUTE` while the requested leaf is executable, clear
`NO_EXECUTE` in place; then re-read the entry's frame and descend into it. -/
def descend (st : PTState) (b idx flags : Nat) : Except MapError (Nat × PTState) :=
  if st.mem b idx = 0 then
    match allocate_frame st with
    | none => .error .OutOfMemory
    | some (f, st1) =>
      match frameOf ((setEntry (zero_frame st1 f) b idx (f ||| parent_flags)).mem b idx) with
      | none => .error .WalkError
      | some c => .ok (c, setEntry (zero_frame st1 f) b idx (f ||| parent_flags))
  else if entry_nx (st.mem b idx) && ! entry_nx flags then
    match frameOf (st.mem b idx) with
    | none => .error .WalkError
    | some cf =>
      match frameOf ((setEntry st b idx (cf ||| parent_flags)).mem b idx) with
      | none => .error .WalkError
      | some c => .ok (c, setEntry st b idx (cf ||| parent_flags))
  else
    match frameOf (st.mem b idx) with
    | none => .error .WalkError
    | some c => .ok (c, st)

/-- `map_single_page(virt, frame, flags)`: reject unaligned addresses, walk
P4 → P3 → P2 creating levels as needed, then unconditionally overwrite the
P1 entry with `frame` and `flags | PRESENT`.  The TLB flush has no memory
effect in the model. -/
def map_single_page (st : PTState) (virt frame flags : Nat) : Except MapError PTState :=
  if virt &&& 0xfff ≠ 0 then .error .InvalidAddress
  else
    match descend st st.cr3 (p4_index virt) flags with
    | .error e => .error e
    | .ok (b3, st1) =>
      match descend st1 b3 (p3_index virt) flags with
      | .error e => .error e
      | .ok (b2, st2) =>
        match descend st2 b2 (p2_index virt) flags with
        | .error e => .error e
        | .ok (b1, st3) =>
          .ok (setEntry st3 b1 (p1_index virt) (frame ||| (flags ||| 1)))

/-- `page_is_mapped(virt)`: walk the four levels; at each intermediate level
an unused entry or a failed `frame()` is "not mapped"; at P1 the entry must
be used and carry `PRESENT`. -/
def page_is_mapped (st : PTState) (virt : Nat) : Bool :=
  if st.mem st.cr3 (p4_index virt) = 0 then false else
  match frameOf (st.mem st.cr3 (p4_index virt)) with
  | none => false
  | some b3 =>
    if st.mem b3 (p3_index virt) = 0 then false else
    match frameOf (st.mem b3 (p3_index virt)) with
    | none => false
    | some b2 =>
      if st.mem b2 (p2_index virt) = 0 then false else
      match frameOf (st.mem b2 (p2_index virt)) with
      | none => false
      | some b1 =>
        ! (st.mem b1 (p1_index virt) == 0) && entry_present (st.mem b1 (p1_index virt))

/-- The table bases the walk for `virt` visits in state `st`, as far as the
present entries reach: the root, then each level's `frame()` target. -/
def pre_bases (st : PTState) (virt : Nat) : List Nat :=
  st.cr3 :: (match frameOf (st.mem st.cr3 (p4_index virt)) with
    | none => []
    | some b3 => b3 :: (match frameOf (st.mem b3 (p3_index virt)) with
      | none => []
      | some b2 => b2 :: (match frameOf (st.mem b2 (p2_index virt)) with
        | none => []
        | some b1 => [b1])))

-- ===========================================================================
-- Entry-level facts
-- ===========================================================================

theorem ADDR_MASK_eq : ADDR_MASK = 2 ^ 52 - 2 ^ 12 := by norm_num [ADDR_MASK]

/-- Low bits of a 4096-multiple are clear. -/
theorem testBit_low_of_mod {c k i : Nat} (hc : c % 2 ^ k = 0) (hi : i < k) :
    c.testBit i = false := by
  obtain ⟨q, rfl⟩ := Nat.dvd_of_mod_eq_zero hc
  rw [Nat.testBit_to_div_mod]
  have h1 : 2 ^ k * q / 2 ^ i = 2 ^ (k - i) * q := by
    have : 2 ^ k = 2 ^ i * 2 ^ (k - i) := by rw [← Nat.pow_add]; congr 1; omega
    rw [this, Nat.mul_assoc, Nat.mul_div_cancel_left _ (Nat.pos_pow_of_pos i (by omega))]
  rw [h1]
  have h2 : 2 ^ (k - i) * q % 2 = 0 := by
    have hdvd : (2 : Nat) ∣ 2 ^ (k - i) * q :=
      Dvd.dvd.mul_right (dvd_pow_self 2 (by omega)) q
    omega
  simp [h2]

/-- All bits below position `k` clear means divisible by `2^k`. -/
theorem mod_pow_of_low_bits {x k : Nat} (h : ∀ i, i < k → x.testBit i = false) :
    x % 2 ^ k = 0 := by
  have hz : x % 2 ^ k = 0 ↔ ∀ j, (x % 2 ^ k).testBit j = false := by
    constructor
    · intro hx j; rw [hx]; exact Nat.zero_testBit j
    · intro hj
      have := Nat.eq_of_testBit_eq (x := x % 2 ^ k) (y := 0)
        (fun j => by rw [hj j, Nat.zero_testBit])
      exact this
  rw [hz]
  intro j
  rw [Nat.testBit_mod_two_pow]
  by_cases hj : j < k
  · simp [hj, h j hj]
  · simp [hj]

theorem entry_addr_aligned (e : Nat) : entry_addr e % 4096 = 0 := by
  have h : entry_addr e % 2 ^ 12 = 0 := by
    apply mod_pow_of_low_bits
    intro i hi
    unfold entry_addr
    rw [Nat.testBit_and, ADDR_MASK_eq, mask_testBit 52 12 i (by omega)]
    have : ¬ (12 ≤ i) := by omega
    simp [this]
  simpa using h

theorem entry_addr_lt (e : Nat) : entry_addr e < 2 ^ 52 := by
  have h1 : entry_addr e ≤ ADDR_MASK := Nat.and_le_right
  have h2 : ADDR_MASK < 2 ^ 52 := by
    rw [ADDR_MASK_eq]
    have hb : (0 : Nat) < 2 ^ 12 := by positivity
    have ha : (2 : Nat) ^ 12 ≤ 2 ^ 52 := Nat.pow_le_pow_right (by omega) (by omega)
    omega
  omega

theorem or3_present (c : Nat) : entry_present (c ||| 3) = true := by
  simp [entry_present, Nat.testBit_or]

theorem or3_not_huge {c : Nat} (hc : c % 4096 = 0) : entry_huge (c ||| 3) = false := by
  have h1 : c.testBit 7 = false := testBit_low_of_mod (k := 12) (by simpa using hc) (by omega)
  have h2 : (3 : Nat).testBit 7 = false := by decide
  simp [entry_huge, Nat.testBit_or, h1, h2]

theorem or3_addr {c : Nat} (hc : c % 4096 = 0) (hlt : c < 2 ^ 52) :
    entry_addr (c ||| 3) = c := by
  unfold entry_addr
  apply Nat.eq_of_testBit_eq
  intro i
  rw [Nat.testBit_and, Nat.testBit_or, ADDR_MASK_eq, mask_testBit 52 12 i (by omega)]
  rcases Nat.lt_or_ge i 12 with hi | hi
  · have hc1 : c.testBit i = false := testBit_low_of_mod (k := 12) (by simpa using hc) hi
    have : ¬ (12 ≤ i) := by omega
    simp [this, hc1]
  · rcases Nat.lt_or_ge i 52 with hi2 | hi2
    · have h3 : (3 : Nat).testBit i = false := Nat.testBit_lt_two_pow (by
        calc (3:Nat) < 2 ^ 2 := by norm_num
        _ ≤ 2 ^ i := Nat.pow_le_pow_right (by omega) (by omega))
      simp [hi, hi2, h3]
    · have hcf : c.testBit i = false := Nat.testBit_lt_two_pow (by
        calc c < 2 ^ 52 := hlt
        _ ≤ 2 ^ i := Nat.pow_le_pow_right (by omega) hi2)
      have h3 : (3 : Nat).testBit i = false := Nat.testBit_lt_two_pow (by
        calc (3:Nat) < 2 ^ 2 := by norm_num
        _ ≤ 2 ^ i := Nat.pow_le_pow_right (by omega) (by omega))
      have : ¬ (i < 52) := by omega
      simp [this, hcf, h3]

theorem frameOf_or3 {c : Nat} (hc : c % 4096 = 0) (hlt : c < 2 ^ 52) :
    frameOf (c ||| 3) = some c := by
  unfold frameOf
  rw [or3_present c, or3_not_huge hc]
  simp [or3_addr hc hlt]

theorem present_or1 (x y : Nat) : entry_present (x ||| (y ||| 1)) = true := by
  simp [entry_present, Nat.testBit_or]

theorem ne_zero_of_present {e : Nat} (h : entry_present e = true) : e ≠ 0 := by
  intro h0
  subst h0
  simp [entry_present, Nat.zero_testBit] at h

theorem frameOf_some_facts {e c : Nat} (h : frameOf e = some c) :
    c % 4096 = 0 ∧ c < 2 ^ 52 ∧ e ≠ 0 := by
  unfold frameOf at h
  split at h
  · rename_i hp
    simp only [Option.some.injEq] at h
    subst h
    refine ⟨entry_addr_aligned e, entry_addr_lt e, ?_⟩
    exact ne_zero_of_present (by
      rcases Bool.and_eq_true _ _ |>.mp hp with ⟨h1, _⟩
      exact h1)
  · cases h

-- ===========================================================================
-- State-access facts
-- ===========================================================================

theorem setEntry_same (st : PTState) (b i v : Nat) : (setEntry st b i v).mem b i = v := by
  simp [setEntry]

theorem setEntry_other (st : PTState) {b i : Nat} (v : Nat) {b' i' : Nat}
    (h : ¬ (b' = b ∧ i' = i)) : (setEntry st b i v).mem b' i' = st.mem b' i' := by
  simp only [setEntry]
  rw [if_neg h]

theorem zero_frame_same (st : PTState) (f i : Nat) : (zero_frame st f).mem f i = 0 := by
  simp [zero_frame]

theorem zero_frame_other (st : PTState) {f b' : Nat} (i : Nat) (h : b' ≠ f) :
    (zero_frame st f).mem b' i = st.mem b' i := by
  simp only [zero_frame]
  rw [if_neg h]

-- ===========================================================================
-- Frame-allocator facts
-- ===========================================================================

theorem h4096_eq : (4096 : Nat) = 2 ^ 12 := by norm_num

theorem align4k_mod (n : Nat) : align_up n 4096 % 4096 = 0 := by
  obtain ⟨q, hq⟩ := align_up_dvd n 12 (by omega)
  rw [h4096_eq, hq, Nat.mul_mod_right]

theorem align4k_bounds {n : Nat} (h : n ≤ 2 ^ 52) :
    n ≤ align_up n 4096 ∧ align_up n 4096 ≤ n + 4095 := by
  have hw : n + 2 ^ 12 - 1 < U64 := by rw [U64_eq]; norm_num; omega
  have := align_up_bounds n 12 (by omega) hw
  rw [← h4096_eq] at this
  omega

theorem align4k_self {c : Nat} (hc : c % 4096 = 0) (h : c ≤ 2 ^ 52) :
    align_up c 4096 = c := by
  have hw : c + 2 ^ 12 - 1 < U64 := by rw [U64_eq]; norm_num; omega
  rw [h4096_eq]
  exact align_up_self c 12 (by omega) hw (by rw [← h4096_eq]; exact hc)

theorem allocate_frame_some {st : PTState} {f : Nat} {st1 : PTState}
    (hnext : st.next_frame ≤ 2 ^ 52) (hend : st.mem_end ≤ 2 ^ 52)
    (h : allocate_frame st = some (f, st1)) :
    f = align_up st.next_frame 4096 ∧ f + 4096 ≤ st.mem_end ∧ f % 4096 = 0 ∧
    f < 2 ^ 52 ∧ st1.next_frame = f + 4096 ∧ st1.next_frame ≤ 2 ^ 52 ∧
    st1.cr3 = st.cr3 ∧ st1.mem = st.mem ∧ st1.mem_end = st.mem_end ∧
    align_up st1.next_frame 4096 = f + 4096 := by
  have hb := align4k_bounds hnext
  have hmod : (align_up st.next_frame 4096 + 4096) % U64 =
      align_up st.next_frame 4096 + 4096 := by
    apply Nat.mod_eq_of_lt
    rw [U64_eq]
    have : (2:Nat) ^ 52 + 4095 + 4096 < 2 ^ 64 := by norm_num
    omega
  unfold allocate_frame at h
  rw [hmod] at h
  split at h
  · cases h
  · rename_i hle
    simp only [Option.some.injEq, Prod.mk.injEq] at h
    obtain ⟨rfl, rfl⟩ := h
    have hal : align_up st.next_frame 4096 % 4096 = 0 := align4k_mod st.next_frame
    have hle2 : align_up st.next_frame 4096 + 4096 ≤ st.mem_end := by omega
    refine ⟨rfl, hle2, hal, by omega, by simp [hmod], by simp [hmod]; omega, rfl, rfl, rfl, ?_⟩
    simp only [hmod]
    exact align4k_self (by omega) (by omega)

-- ===========================================================================
-- Facts about one level of the walk
-- ===========================================================================

/-- A `descend` step on an unused entry: a fresh table at the aligned cursor
is zeroed, linked into `(b, idx)` with the parent flags, and descended into;
the rest of memory is untouched. -/
theorem descend_fresh {st : PTState} {b idx flags c : Nat} {st' : PTState}
    (h0 : st.mem b idx = 0) (hnext : st.next_frame ≤ 2 ^ 52) (hend : st.mem_end ≤ 2 ^ 52)
    (hb : b ≠ align_up st.next_frame 4096)
    (h : descend st b idx flags = .ok (c, st')) :
    c = align_up st.next_frame 4096 ∧
    st'.cr3 = st.cr3 ∧ st'.mem_end = st.mem_end ∧
    st'.next_frame = c + 4096 ∧ c + 4096 ≤ st.mem_end ∧ c % 4096 = 0 ∧
    st'.next_frame ≤ 2 ^ 52 ∧ align_up st'.next_frame 4096 = c + 4096 ∧
    frameOf (st'.mem b idx) = some c ∧
    (∀ i, st'.mem c i = 0) ∧
    (∀ b' i', b' ≠ b → b' ≠ c → st'.mem b' i' = st.mem b' i') ∧
    (∀ i', i' ≠ idx → st'.mem b i' = st.mem b i') := by
  unfold descend at h
  rw [if_pos h0] at h
  split at h
  · cases h
  · rename_i f st1 halloc
    obtain ⟨hf, hfle, hfmod, hflt, hn1, hn1le, hc1, hm1, he1, ha1⟩ :=
      allocate_frame_some hnext hend halloc
    have hentry : (setEntry (zero_frame st1 f) b idx (f ||| parent_flags)).mem b idx =
        f ||| 3 := by
      rw [setEntry_same]
      rfl
    rw [hentry, frameOf_or3 hfmod hflt] at h
    simp only [Except.ok.injEq, Prod.mk.injEq] at h
    obtain ⟨rfl, rfl⟩ := h
    subst hf
    refine ⟨rfl, by simp [setEntry, zero_frame, hc1], by simp [setEntry, zero_frame, he1],
      by simp [setEntry, zero_frame, hn1], hfle, hfmod,
      by simp [setEntry, zero_frame]; omega,
      by simp only [setEntry, zero_frame]; exact ha1, ?_, ?_, ?_, ?_⟩
    · rw [hentry]
      exact frameOf_or3 hfmod hflt
    · intro i
      rw [setEntry_other _ _ (fun hx => hb hx.1.symm)]
      rw [zero_frame_same]
    · intro b' i' hbb hbc
      rw [setEntry_other _ _ (fun hx => hbb hx.1)]
      rw [zero_frame_other _ _ hbc, hm1]
    · intro i' hi'
      rw [setEntry_other _ _ (fun hx => hi' hx.2)]
      rw [zero_frame_other _ _ hb, hm1]

/-- A `descend` step on a used entry: the step descends into the entry's
frame (possibly clearing `NO_EXECUTE` in place), touches nothing but
`(b, idx)`, and allocates nothing. -/
theorem descend_old {st : PTState} {b idx flags c : Nat} {st' : PTState}
    (h0 : st.mem b idx ≠ 0)
    (h : descend st b idx flags = .ok (c, st')) :
    frameOf (st.mem b idx) = some c ∧
    st'.cr3 = st.cr3 ∧ st'.mem_end = st.mem_end ∧ st'.next_frame = st.next_frame ∧
    c % 4096 = 0 ∧ c < 2 ^ 52 ∧
    frameOf (st'.mem b idx) = some c ∧
    (∀ b' i', ¬ (b' = b ∧ i' = idx) → st'.mem b' i' = st.mem b' i') := by
  unfold descend at h
  rw [if_neg h0] at h
  split at h
  · split at h
    · cases h
    · rename_i cf hfr
      obtain ⟨hcfmod, hcflt, _⟩ := frameOf_some_facts hfr
      have hentry : (setEntry st b idx (cf ||| parent_flags)).mem b idx = cf ||| 3 := by
        rw [setEntry_same]
        rfl
      rw [hentry, frameOf_or3 hcfmod hcflt] at h
      simp only [Except.ok.injEq, Prod.mk.injEq] at h
      obtain ⟨rfl, rfl⟩ := h
      refine ⟨hfr, by simp [setEntry], by simp [setEntry], by simp [setEntry],
        hcfmod, hcflt, ?_, ?_⟩
      · rw [hentry]
        exact frameOf_or3 hcfmod hcflt
      · intro b' i' hne
        exact setEntry_other _ _ hne
  · split at h
    · cases h
    · rename_i c' hfr
      simp only [Except.ok.injEq, Prod.mk.injEq] at h
      obtain ⟨rfl, rfl⟩ := h
      obtain ⟨hmod, hlt, _⟩ := frameOf_some_facts hfr
      exact ⟨hfr, rfl, rfl, rfl, hmod, hlt, hfr, fun _ _ _ => rfl⟩

/-- The common shape of both `descend` outcomes: the entry at `(b, idx)` now
resolves to the child `c`, the root register is untouched, and every entry in
a table other than `b` and `c` is untouched. -/
def step_out (stIn : PTState) (b idx c : Nat) (stOut : PTState) : Prop :=
  frameOf (stOut.mem b idx) = some c ∧
  stOut.cr3 = stIn.cr3 ∧
  (∀ b' i', b' ≠ b → b' ≠ c → stOut.mem b' i' = stIn.mem b' i')

theorem step_out_of_fresh {st : PTState} {b idx flags c : Nat} {st' : PTState}
    (h0 : st.mem b idx = 0) (hnext : st.next_frame ≤ 2 ^ 52) (hend : st.mem_end ≤ 2 ^ 52)
    (hb : b ≠ align_up st.next_frame 4096)
    (h : descend st b idx flags = .ok (c, st')) : step_out st b idx c st' := by
  obtain ⟨_, hc, _, _, _, _, _, _, hfr, _, hpres, _⟩ := descend_fresh h0 hnext hend hb h
  exact ⟨hfr, hc, hpres⟩

theorem step_out_of_old {st : PTState} {b idx flags c : Nat} {st' : PTState}
    (h0 : st.mem b idx ≠ 0)
    (h : descend st b idx flags = .ok (c, st')) : step_out st b idx c st' := by
  obtain ⟨_, hc, _, _, _, _, hfr, hpres⟩ := descend_old h0 h
  exact ⟨hfr, hc, fun b' i' hb' _ => hpres b' i' (fun hx => hb' hx.1)⟩

/-- After the three walk steps and the leaf write, and given that the four
table bases are pairwise distinct, the walk's entries are all in place. -/
theorem final_reads {st st1 st2 st3 : PTState} {c4 b3 b2 b1 i4 i3 i2 i1 leafv : Nat}
    (s1 : step_out st c4 i4 b3 st1) (s2 : step_out st1 b3 i3 b2 st2)
    (s3 : step_out st2 b2 i2 b1 st3)
    (d43 : c4 ≠ b3) (d42 : c4 ≠ b2) (d41 : c4 ≠ b1)
    (d32 : b3 ≠ b2) (d31 : b3 ≠ b1) (d21 : b2 ≠ b1) :
    frameOf ((setEntry st3 b1 i1 leafv).mem c4 i4) = some b3 ∧
    frameOf ((setEntry st3 b1 i1 leafv).mem b3 i3) = some b2 ∧
    frameOf ((setEntry st3 b1 i1 leafv).mem b2 i2) = some b1 ∧
    (setEntry st3 b1 i1 leafv).mem b1 i1 = leafv ∧
    (setEntry st3 b1 i1 leafv).cr3 = st.cr3 := by
  refine ⟨?_, ?_, ?_, setEntry_same _ _ _ _, ?_⟩
  · rw [setEntry_other _ _ (fun hx => d41 hx.1)]
    rw [s3.2.2 c4 i4 d42 d41, s2.2.2 c4 i4 d43 d42]
    exact s1.1
  · rw [setEntry_other _ _ (fun hx => d31 hx.1)]
    rw [s3.2.2 b3 i3 d32 d31]
    exact s2.1
  · rw [setEntry_other _ _ (fun hx => d21 hx.1)]
    exact s3.1
  · show st3.cr3 = st.cr3
    rw [s3.2.1, s2.2.1, s1.2.1]

/-- `page_is_mapped` succeeds once the four reads of the walk resolve. -/
theorem mapped_of_final {st' : PTState} {cr3v b3 b2 b1 virt frame flags : Nat}
    (hcr3 : st'.cr3 = cr3v)
    (h4 : frameOf (st'.mem cr3v (p4_index virt)) = some b3)
    (h3 : frameOf (st'.mem b3 (p3_index virt)) = some b2)
    (h2 : frameOf (st'.mem b2 (p2_index virt)) = some b1)
    (h1 : st'.mem b1 (p1_index virt) = frame ||| (flags ||| 1)) :
    page_is_mapped st' virt = true := by
  have h4ne := (frameOf_some_facts h4).2.2
  have h3ne := (frameOf_some_facts h3).2.2
  have h2ne := (frameOf_some_facts h2).2.2
  have hlp := present_or1 frame flags
  have hlne := ne_zero_of_present hlp
  unfold page_is_mapped
  rw [hcr3]
  simp [h4, h4ne, h3, h3ne, h2, h2ne, h1, hlp, hlne]

theorem frameOf_zero : frameOf 0 = none := rfl

/-- C2's walk lemma: in a well-formed state (the visited bases are distinct
and all lie below the frame allocator's next frame), a successful
`map_single_page` makes `page_is_mapped` true. -/
theorem map_is_mapped_aux {st : PTState} {virt frame flags : Nat} {st' : PTState}
    (hnd : (pre_bases st virt).Nodup)
    (hbd : ∀ b ∈ pre_bases st virt, b < align_up st.next_frame 4096)
    (hnext : st.next_frame ≤ 2 ^ 52) (hend : st.mem_end ≤ 2 ^ 52)
    (h : map_single_page st virt frame flags = .ok st') :
    page_is_mapped st' virt = true := by
  unfold map_single_page at h
  split at h
  · cases h
  split at h
  · cases h
  rename_i b3 st1 hd1
  split at h
  · cases h
  rename_i b2 st2 hd2
  split at h
  · cases h
  rename_i b1 st3 hd3
  simp only [Except.ok.injEq] at h
  subst h
  have hcr3A : st.cr3 < align_up st.next_frame 4096 :=
    hbd st.cr3 (List.mem_cons_self _ _)
  by_cases he4 : st.mem st.cr3 (p4_index virt) = 0
  · -- all three levels fresh
    obtain ⟨hb3, hc1, he1, hn1, _, _, hn1le, ha1, _, hz1, _, _⟩ :=
      descend_fresh he4 hnext hend (by omega) hd1
    have s1 := step_out_of_fresh he4 hnext hend (by omega) hd1
    obtain ⟨hb2, hc2, he2, hn2, _, _, hn2le, ha2, _, hz2, _, _⟩ :=
      descend_fresh (hz1 (p3_index virt)) hn1le (he1 ▸ hend) (by omega) hd2
    have s2 := step_out_of_fresh (hz1 (p3_index virt)) hn1le (he1 ▸ hend) (by omega) hd2
    obtain ⟨hb1c, _, _, _, _, _, _, _, _, _, _, _⟩ :=
      descend_fresh (hz2 (p2_index virt)) hn2le (he2 ▸ he1 ▸ hend) (by omega) hd3
    have s3 := step_out_of_fresh (hz2 (p2_index virt)) hn2le (he2 ▸ he1 ▸ hend)
      (by omega) hd3
    obtain ⟨f4, f3, f2, f1, fc⟩ := final_reads s1 s2 s3
      (by omega) (by omega) (by omega) (by omega) (by omega) (by omega)
    exact mapped_of_final fc f4 f3 f2 f1
  · -- level 1 follows an existing entry
    obtain ⟨hfr1, hc1, he1, hn1, _, _, _, hp1⟩ := descend_old he4 hd1
    have s1 := step_out_of_old he4 hd1
    have hpb : pre_bases st virt = st.cr3 :: b3 ::
        (match frameOf (st.mem b3 (p3_index virt)) with
          | none => []
          | some b2x => b2x :: (match frameOf (st.mem b2x (p2_index virt)) with
            | none => []
            | some b1x => [b1x])) := by
      unfold pre_bases
      rw [hfr1]
    have hcr3b3 : st.cr3 ≠ b3 := by
      rw [hpb] at hnd
      simp only [List.nodup_cons, List.mem_cons] at hnd
      exact fun hx => hnd.1 (Or.inl hx)
    have hb3A : b3 < align_up st.next_frame 4096 := by
      apply hbd
      rw [hpb]
      exact List.mem_cons_of_mem _ (List.mem_cons_self _ _)
    have hm13 : st1.mem b3 (p3_index virt) = st.mem b3 (p3_index virt) :=
      hp1 _ _ (fun hx => hcr3b3 hx.1.symm)
    have haA : align_up st1.next_frame 4096 = align_up st.next_frame 4096 := by
      rw [hn1]
    by_cases he3 : st.mem b3 (p3_index virt) = 0
    · -- levels 2 and 3 fresh
      obtain ⟨hb2, hc2, he2, hn2, _, _, hn2le, ha2, _, hz2, _, _⟩ :=
        descend_fresh (hm13 ▸ he3) (hn1 ▸ hnext) (he1 ▸ hend)
          (by rw [haA]; omega) hd2
      have s2 := step_out_of_fresh (hm13 ▸ he3) (hn1 ▸ hnext) (he1 ▸ hend)
        (by rw [haA]; omega) hd2
      rw [haA] at hb2
      obtain ⟨hb1c, _, _, _, _, _, _, _, _, _, _, _⟩ :=
        descend_fresh (hz2 (p2_index virt)) hn2le (he2 ▸ he1 ▸ hend) (by omega) hd3
      have s3 := step_out_of_fresh (hz2 (p2_index virt)) hn2le (he2 ▸ he1 ▸ hend)
        (by omega) hd3
      obtain ⟨f4, f3, f2, f1, fc⟩ := final_reads s1 s2 s3
        hcr3b3 (by omega) (by omega) (by omega) (by omega) (by omega)
      exact mapped_of_final fc f4 f3 f2 f1
    · -- level 2 follows an existing entry
      obtain ⟨hfr2, hc2, he2, hn2, _, _, _, hp2⟩ := descend_old (hm13 ▸ he3) hd2
      rw [hm13] at hfr2
      have s2 := step_out_of_old (hm13 ▸ he3) hd2
      have hpb2 : pre_bases st virt = st.cr3 :: b3 :: b2 ::
          (match frameOf (st.mem b2 (p2_index virt)) with
            | none => []
            | some b1x => [b1x]) := by
        rw [hpb, hfr2]
      have hnds : st.cr3 ≠ b3 ∧ st.cr3 ≠ b2 ∧ b3 ≠ b2 := by
        rw [hpb2] at hnd
        simp only [List.nodup_cons, List.mem_cons] at hnd
        exact ⟨fun hx => hnd.1 (Or.inl hx), fun hx => hnd.1 (Or.inr (Or.inl hx)),
          fun hx => hnd.2.1 (Or.inl hx)⟩
      have hb2A : b2 < align_up st.next_frame 4096 := by
        apply hbd
        rw [hpb2]
        exact List.mem_cons_of_mem _ (List.mem_cons_of_mem _ (List.mem_cons_self _ _))
      have hm22 : st2.mem b2 (p2_index virt) = st.mem b2 (p2_index virt) := by
        rw [hp2 _ _ (fun hx => hnds.2.2 hx.1.symm),
          hp1 _ _ (fun hx => hnds.2.1 hx.1.symm)]
      have haA2 : align_up st2.next_frame 4096 = align_up st.next_frame 4096 := by
        rw [hn2, hn1]
      by_cases he2x : st.mem b2 (p2_index virt) = 0
      · -- level 3 fresh
        obtain ⟨hb1c, _, _, _, _, _, _, _, _, _, _, _⟩ :=
          descend_fresh (hm22 ▸ he2x) (hn2 ▸ hn1 ▸ hnext) (he2 ▸ he1 ▸ hend)
            (by rw [haA2]; omega) hd3
        have s3 := step_out_of_fresh (hm22 ▸ he2x) (hn2 ▸ hn1 ▸ hnext)
          (he2 ▸ he1 ▸ hend) (by rw [haA2]; omega) hd3
        rw [haA2] at hb1c
        obtain ⟨f4, f3, f2, f1, fc⟩ := final_reads s1 s2 s3
          hnds.1 hnds.2.1 (by omega) hnds.2.2 (by omega) (by omega)
        exact mapped_of_final fc f4 f3 f2 f1
      · -- level 3 follows an existing entry
        obtain ⟨hfr3, _, _, _, _, _, _, _⟩ := descend_old (hm22 ▸ he2x) hd3
        rw [hm22] at hfr3
        have s3 := step_out_of_old (hm22 ▸ he2x) hd3
        have hpb3 : pre_bases st virt = [st.cr3, b3, b2, b1] := by
          rw [hpb2, hfr3]
        have hnds4 : st.cr3 ≠ b3 ∧ st.cr3 ≠ b2 ∧ st.cr3 ≠ b1 ∧ b3 ≠ b2 ∧ b3 ≠ b1 ∧
            b2 ≠ b1 := by
          rw [hpb3] at hnd
          simp only [List.nodup_cons, List.mem_cons, List.mem_singleton,
            List.not_mem_nil] at hnd
          refine ⟨fun hx => hnd.1 ?_, fun hx => hnd.1 ?_, fun hx => hnd.1 ?_,
            fun hx => hnd.2.1 ?_, fun hx => hnd.2.1 ?_, fun hx => hnd.2.2.1 ?_⟩
          · exact Or.inl hx
          · exact Or.inr (Or.inl hx)
          · exact Or.inr (Or.inr (Or.inl hx))
          · exact Or.inl hx
          · exact Or.inr (Or.inl hx)
          · exact Or.inl hx
        obtain ⟨f4, f3, f2, f1, fc⟩ := final_reads s1 s2 s3
          hnds4.1 hnds4.2.1 hnds4.2.2.1 hnds4.2.2.2.1 hnds4.2.2.2.2.1 hnds4.2.2.2.2.2
        exact mapped_of_final fc f4 f3 f2 f1

/-- C2: In a well-formed state — the table bases the walk visits are
pairwise distinct and all predate the frame allocator's cursor — a
successful `map(V, F, flags)` makes `is_mapped(V)` true; and whenever an
intermediate level's entry is absent, the walk links a freshly allocated
table into it whose 512 entries are all zero at the moment of (and after)
linking. -/
theorem C2_map_install :
    (∀ (st : PTState) (virt frame flags : Nat) (st' : PTState),
      (pre_bases st virt).Nodup →
      (∀ b ∈ pre_bases st virt, b < align_up st.next_frame 4096) →
      st.next_frame ≤ 2 ^ 52 → st.mem_end ≤ 2 ^ 52 →
      map_single_page st virt frame flags = .ok st' →
      page_is_mapped st' virt = true) ∧
    (∀ (st : PTState) (b idx flags c : Nat) (st' : PTState),
      st.mem b idx = 0 → st.next_frame ≤ 2 ^ 52 → st.mem_end ≤ 2 ^ 52 →
      b ≠ align_up st.next_frame 4096 →
      descend st b idx flags = .ok (c, st') →
      frameOf (st'.mem b idx) = some c ∧ ∀ i, st'.mem c i = 0) := by
  constructor
  · intro st virt frame flags st' hnd hbd hnext hend h
    exact map_is_mapped_aux hnd hbd hnext hend h
  · intro st b idx flags c st' h0 hnext hend hb h
    obtain ⟨_, _, _, _, _, _, _, _, hfr, hz, _, _⟩ := descend_fresh h0 hnext hend hb h
    exact ⟨hfr, hz⟩

/-- An empty address space: one zeroed root table at `0x1000`, frames handed
out from `0x10000`. -/
def c2_st0 : PTState := ⟨0x1000, fun _ _ => 0, 0x10000, 0x20000⟩

/-- The state after mapping page `0x5000` to frame `0x9000` in `c2_st0`. -/
def c2_res : PTState :=
  match map_single_page c2_st0 0x5000 0x9000 2 with
  | .ok s => s
  | .error _ => c2_st0

/-- The state after one fresh `descend` step in `c2_st0`. -/
def c2d_res : PTState :=
  match descend c2_st0 0x1000 0 2 with
  | .ok (_, s) => s
  | .error _ => c2_st0

/-- Witness for C2: mapping `0x5000` in the empty address space makes it
mapped, and the first fresh level links an all-zero table. -/
theorem C2_map_install_witness :
    page_is_mapped c2_res 0x5000 = true ∧
    (frameOf (c2d_res.mem 0x1000 0) = some 0x10000 ∧ ∀ i, c2d_res.mem 0x10000 i = 0) :=
  ⟨C2_map_install.1 c2_st0 0x5000 0x9000 2 c2_res (by decide) (by decide)
      (by norm_num [c2_st0]) (by norm_num [c2_st0]) rfl,
   C2_map_install.2 c2_st0 0x1000 0 2 0x10000 c2d_res rfl (by norm_num [c2_st0])
      (by norm_num [c2_st0]) (by decide) rfl⟩

-- ===========================================================================
-- C8: process page-table creation (`create_process_page_table`)
-- ===========================================================================

/-- The `for i in 256..512 { new_p4[i] = current_p4[i].clone() }` loop,
unrolled from the low index up: after `n` iterations entries
`256 .. 256+n-1` have been copied. -/
def copy_upper (st : PTState) (src dst : Nat) : Nat → PTState
  | 0 => st
  | n + 1 => setEntry (copy_upper st src dst n) dst (256 + n)
      ((copy_upper st src dst n).mem src (256 + n))

/-- `create_process_page_table()`: allocate a frame, zero it, copy the upper
half of the active root table into it.  The source's error is a static
string; it is modelled as `Unit`. -/
def create_process_page_table (st : PTState) : Except Unit (Nat × PTState) :=
  match allocate_frame st with
  | none => .error ()
  | some (f, st1) => .ok (f, copy_upper (zero_frame st1 f) st1.cr3 f 256)

/-- Pointwise description of the copy loop (the source and destination
tables being distinct). -/
theorem copy_upper_mem (st : PTState) (src dst : Nat) (hsd : src ≠ dst) :
    ∀ n, ∀ b i, (copy_upper st src dst n).mem b i =
      if b = dst ∧ 256 ≤ i ∧ i < 256 + n then st.mem src i else st.mem b i := by
  intro n
  induction n with
  | zero =>
    intro b i
    show st.mem b i = _
    rw [if_neg (fun hx => by omega)]
  | succ n ih =>
    intro b i
    show (setEntry (copy_upper st src dst n) dst (256 + n)
      ((copy_upper st src dst n).mem src (256 + n))).mem b i = _
    have hv : (copy_upper st src dst n).mem src (256 + n) = st.mem src (256 + n) := by
      rw [ih]
      rw [if_neg (fun hx => hsd hx.1)]
    by_cases hb : b = dst ∧ i = 256 + n
    · rw [hb.1, hb.2, setEntry_same, hv]
      rw [if_pos ⟨rfl, by omega, by omega⟩]
    · rw [setEntry_other _ _ hb, ih]
      by_cases hbi : b = dst ∧ 256 ≤ i ∧ i < 256 + n
      · rw [if_pos hbi, if_pos ⟨hbi.1, hbi.2.1, by omega⟩]
      · have hcond : ¬ (b = dst ∧ 256 ≤ i ∧ i < 256 + (n + 1)) := by
          intro hx
          rcases Nat.lt_or_ge i (256 + n) with hlt | hge
          · exact hbi ⟨hx.1, hx.2.1, hlt⟩
          · exact hb ⟨hx.1, by omega⟩
        rw [if_neg hbi, if_neg hcond]

/-- C8: A successful `create_process_page_table()` yields a fresh root table
whose entries 0–255 are all absent (zero) and whose entries 256–511 are
value-copies of the active root table's entries at the same indices at the
moment of the call. -/
theorem C8_process_page_table :
    ∀ (st : PTState) (f : Nat) (st' : PTState),
      st.next_frame ≤ 2 ^ 52 → st.mem_end ≤ 2 ^ 52 →
      st.cr3 < align_up st.next_frame 4096 →
      create_process_page_table st = .ok (f, st') →
      (∀ i, i < 256 → st'.mem f i = 0) ∧
      (∀ i, 256 ≤ i → i < 512 → st'.mem f i = st.mem st.cr3 i) := by
  intro st f st' hnext hend hcr3 h
  unfold create_process_page_table at h
  split at h
  · cases h
  · rename_i f0 st1 halloc
    obtain ⟨hf, _, _, _, _, _, hc1, hm1, _, _⟩ := allocate_frame_some hnext hend halloc
    simp only [Except.ok.injEq, Prod.mk.injEq] at h
    obtain ⟨rfl, rfl⟩ := h
    have hsd : st1.cr3 ≠ f0 := by
      rw [hc1, hf]
      omega
    constructor
    · intro i hi
      rw [copy_upper_mem _ _ _ hsd 256 f0 i]
      rw [if_neg (fun hx => by omega)]
      exact zero_frame_same st1 f0 i
    · intro i h256 h512
      rw [copy_upper_mem _ _ _ hsd 256 f0 i]
      rw [if_pos ⟨rfl, h256, by omega⟩]
      rw [zero_frame_other st1 i hsd, hm1, hc1]

/-- A root table with one nonzero upper-half entry, for the C8 witness. -/
def c8_st0 : PTState :=
  ⟨0x1000, fun b i => if b = 0x1000 ∧ i = 300 then 0x7007 else 0, 0x10000, 0x20000⟩

/-- The result of `create_process_page_table` on `c8_st0`. -/
def c8_res : PTState :=
  match create_process_page_table c8_st0 with
  | .ok (_, s) => s
  | .error _ => c8_st0

/-- Witness for C8: in the fresh root, entry 0 is absent and entry 300
equals the active root's entry 300. -/
theorem C8_process_page_table_witness :
    c8_res.mem 0x10000 0 = 0 ∧ c8_res.mem 0x10000 300 = c8_st0.mem 0x1000 300 :=
  ⟨(C8_process_page_table c8_st0 0x10000 c8_res (by norm_num [c8_st0])
      (by norm_num [c8_st0]) (by decide) rfl).1 0 (by decide),
   (C8_process_page_table c8_st0 0x10000 c8_res (by norm_num [c8_st0])
      (by norm_num [c8_st0]) (by decide) rfl).2 300 (by decide) (by decide)⟩

-- ===========================================================================
-- C1 and C3: the `sys_munmap` and `sys_brk` of `memory/mod.rs`
-- ===========================================================================

/-- The syscall errors used by these handlers. -/
inductive SyscallError where
  | InvalidArgument
  | NoMemory
  deriving DecidableEq, Repr

/-- `sys_munmap(addr, length)` from `memory/mod.rs`: validate, then — the
body is a `TODO` — return `Ok(0)` without touching the page tables.  The
state is threaded to make the absence of any effect explicit. -/
def sys_munmap (st : PTState) (addr length : Nat) : Except SyscallError Nat × PTState :=
  if length = 0 ∨ addr &&& 0xFFF ≠ 0 then (.error .InvalidArgument, st)
  else (.ok 0, st)

/-- A fully mapped page `0x5000` (walk `0x1000 → 0x2000 → 0x3000 → 0x4000`,
leaf frame `0x9000`). -/
def c1_st : PTState :=
  ⟨0x1000,
   fun b i =>
     if b = 0x1000 ∧ i = 0 then 0x2003
     else if b = 0x2000 ∧ i = 0 then 0x3003
     else if b = 0x3000 ∧ i = 0 then 0x4003
     else if b = 0x4000 ∧ i = 5 then 0x9003
     else 0,
   0x10000, 0x20000⟩

/-- C1 (evaluation at the failing input): page `0x5000` is mapped,
`sys_munmap(0x5000, 4096)` — page-aligned, nonzero length — returns success
without modifying any state, and the page is still mapped afterwards.  This
contradicts the claim that a successful `sys_munmap` makes `page_is_mapped`
false on every page of the range. -/
theorem C1_munmap_stub :
    page_is_mapped c1_st 0x5000 = true ∧
    sys_munmap c1_st 0x5000 4096 = (.ok 0, c1_st) ∧
    page_is_mapped (sys_munmap c1_st 0x5000 4096).2 0x5000 = true := by
  exact ⟨by decide, rfl, by decide⟩

/-- `HEAP_START`, the program-break base of `sys_brk` in `memory/mod.rs`. -/
def HEAP_START : Nat := 0x444444440000

/-- `sys_brk(addr)` from `memory/mod.rs`, as a function of the current
`PROGRAM_BREAK` value: `addr = 0` reports the break; any nonzero `addr` is
stored unconditionally — no heap-window check, no page mapping. -/
def sys_brk (brk addr : Nat) : Except SyscallError Nat × Nat :=
  if addr = 0 then (.ok brk, brk)
  else (.ok addr, addr)

/-- C3 (evaluation at the failing input): `0x1000` is nonzero and lies below
`HEAP_START`, hence outside any heap window based there, yet
`sys_brk(0x1000)` succeeds and moves the break to `0x1000`; the zero query
is the only unchanged case.  This contradicts the claim that out-of-window
targets are rejected with the break left unchanged. -/
theorem C3_brk_unchecked :
    ((0x1000 : Nat) ≠ 0 ∧ (0x1000 : Nat) < HEAP_START) ∧
    sys_brk HEAP_START 0x1000 = (.ok 0x1000, 0x1000) ∧
    sys_brk HEAP_START 0 = (.ok HEAP_START, HEAP_START) := by
  exact ⟨by decide, rfl, rfl⟩

end Kernel
